import Mathlib

/-!
webviz: `BinaryMessageWriter` and `RewriteBinaryDataProvider`

A shallow embedding of

* `packages/webviz-core/src/util/binaryObjects/binaryTranslation/index.js`
  (`BinaryMessageWriter`), and
* `packages/webviz-core/src/dataProviders/RewriteBinaryDataProvider.js`
  (`RewriteBinaryDataProvider`).

The WebAssembly bridge (definition registry, message writer, `_malloc`,
`_free`, `HEAPU8`) is not JavaScript of these files: it is a parameter, a
record of functions over an abstract bridge state `σ`.  Every call that the
JavaScript makes into the bridge is recorded, with its arguments and its
return value, as an `Event`; a function of the embedding returns its value
(or the exception it throws), the bridge state it leaves behind and the
events it produced, in program order.
-/

namespace Webviz

/-! ## Data model -/

/-- A rosbag `Time`. -/
structure Time where
  sec : Int
  nsec : Int
deriving DecidableEq, Repr

/-- A `Message` of `players/types`, as the child provider returns it in
`rosBinaryMessages`: `message` is the `ArrayBuffer`, a list of bytes, and
`message.byteLength` is its length. -/
structure Message where
  topic : String
  receiveTime : Time
  message : List Nat
deriving DecidableEq, Repr

/-- A `RosMsgField` of `types/RosDatatypes`.  The optional `isArray` and
`isConstant` are booleans (absent reads as `false`); `arrayLength` is absent
(`null` or `undefined`) or a number. -/
structure RosMsgField where
  type : String
  name : String
  isArray : Bool
  arrayLength : Option Int
  isConstant : Bool
deriving DecidableEq, Repr

/-- A `RosDatatype`: the record with the one member `fields`. -/
structure RosDatatype where
  fields : List RosMsgField
deriving DecidableEq, Repr

/-- A JavaScript object with string keys: the own properties in insertion
order, the keys distinct. -/
abbrev JsObject (α : Type) := List (String × α)

/-- The type `RosDatatypes`: an object from type name to `RosDatatype`. -/
abbrev RosDatatypes := JsObject RosDatatype

/-- The type `BinaryObjects` that `rewriteMessages` returns.  `dataType` is
the `definitionName` argument as it was passed, `none` being `undefined`. -/
structure BinaryObjects where
  dataType : Option String
  offsets : List Int
  buffer : List Nat
  bigString : String
deriving DecidableEq, Repr

/-- One call into the WebAssembly bridge, or one `sendNotification`, with the
arguments passed and the value returned.  Handles of bridge objects
(definitions, message writers) and pointers are numbers.  Two events mark
steps of the JavaScript itself: `newBinaryMessageWriter` the construction of a
`BinaryMessageWriter` by the provider, and `rewriteMessages` a call of
`BinaryMessageWriter.rewriteMessages` by the provider, with its arguments. -/
inductive Event where
  | registryCreate (name : String) (defn : Nat)
  | addField (defn : Nat) (type name : String) (isArray : Bool) (arrayLength : Int) (ok : Bool)
  | registryFinalize (ok : Bool)
  | registryGet (name : Option String) (defn : Option Nat)
  | newMessageWriter (writer : Nat)
  | reserve (writer defn count totalBytes : Nat)
  | malloc (size : Option Nat) (ptr : Nat)
  | heapSet (data : List Nat) (ptr : Nat)
  | write (writer defn ptr dataLength : Nat) (offset : Int)
  | free (ptr : Nat)
  | getBuffer (writer : Nat)
  | getBigString (writer : Nat)
  | writerDelete (writer : Nat)
  | newBinaryMessageWriter
  | rewriteMessages (definitionName : Option String) (messages : List Message)
  | sendNotification (title details : String)
deriving DecidableEq, Repr

/-- The WebAssembly bridge (`bin/translator`), over its state `σ`: what each
entry point returns and the state it leaves.  `registryGet`, `getBuffer` and
`getBigString` only read.  `malloc` returns `0` for the null pointer; its
argument is `none` when JavaScript passes `undefined`. -/
structure Bridge (σ : Type) where
  registryCreate : σ → String → Nat × σ
  addField : σ → Nat → String → String → Bool → Int → Bool × σ
  registryFinalize : σ → Bool × σ
  registryGet : σ → Option String → Option Nat
  newMessageWriter : σ → Nat × σ
  reserve : σ → Nat → Nat → Nat → Nat → σ
  malloc : σ → Option Nat → Nat × σ
  heapSet : σ → List Nat → Nat → σ
  write : σ → Nat → Nat → Nat → Nat → Int × σ
  free : σ → Nat → σ
  getBuffer : σ → Nat → List Nat
  getBigString : σ → Nat → String
  writerDelete : σ → Nat → σ

/-- What a function of the embedding leaves behind: the value it returns or
the message of the `Error` it throws, the bridge state, and the events it
produced in program order. -/
structure Outcome (σ α : Type) where
  val : Except String α
  st : σ
  log : List Event

/-- Whether an outcome is a thrown exception. -/
def Outcome.threw {σ α : Type} (o : Outcome σ α) : Bool :=
  match o.val with
  | .error _ => true
  | .ok _ => false

/-! ## `BinaryMessageWriter` -/

/-- The class `BinaryMessageWriter`: whether `_bridgeInstance` and
`_definitionRegistry` are set (both are `null` until `initialize`). -/
structure BinaryMessageWriter where
  _bridgeInstance : Bool
  _definitionRegistry : Bool
deriving DecidableEq, Repr

/-- The value of `new BinaryMessageWriter()`. -/
def BinaryMessageWriter.new : BinaryMessageWriter :=
  { _bridgeInstance := false, _definitionRegistry := false }

/-- The method `BinaryMessageWriter.initialize`: sets the bridge instance and
a fresh definition registry. -/
def BinaryMessageWriter.initialize (_self : BinaryMessageWriter) : BinaryMessageWriter :=
  { _bridgeInstance := true, _definitionRegistry := true }

/-- JavaScript template rendering of a possibly `undefined` string. -/
def renderString : Option String → String
  | some s => s
  | none => "undefined"

/-- JavaScript template rendering of a possibly `undefined` number. -/
def renderNumber : Option Nat → String
  | some n => toString n
  | none => "undefined"

/-- Message of the error of `_getBridge`. -/
def bridgeNotInitialized : String := "Wasm bridge not initialized"

/-- Message of the error of `_getDefinitions`. -/
def registryNotInitialized : String := "Definition registry not initialized"

/-- Message of the error thrown when `addField` returns false. -/
def couldNotAddField (type : String) : String :=
  "Could not add field with type \"" ++ type ++ "\""

/-- Message of the error thrown when the registry has no such definition. -/
def noDefinitionFound (definitionName : Option String) : String :=
  "No definition found with type \"" ++ renderString definitionName ++ "\""

/-- Message of the error thrown when `_malloc` returns the null pointer. -/
def couldNotAllocate (maxMessageBytes : Option Nat) : String :=
  "Could not allocate memory for data buffer with size \"" ++ renderNumber maxMessageBytes ++ "\""

/-- Message of the error thrown when `write` returns a negative offset. -/
def couldNotWrite (topic : String) (definitionName : Option String) : String :=
  "Could not write message from \"" ++ topic ++ "\" with undefined type \""
    ++ renderString definitionName ++ "\""

/-- The loop of `_createDefinition` over `dataType.fields`: a constant field
is skipped; any other field is passed to `definition.addField` with
`field.arrayLength ?? -1`, and a false result throws. -/
def addFields {σ : Type} (B : Bridge σ) (defn : Nat) :
    List RosMsgField → σ → Outcome σ Unit
  | [], s => ⟨.ok (), s, []⟩
  | field :: rest, s =>
    if field.isConstant then addFields B defn rest s
    else
      let r := B.addField s defn field.type field.name field.isArray (field.arrayLength.getD (-1))
      let ev := Event.addField defn field.type field.name field.isArray
        (field.arrayLength.getD (-1)) r.1
      if r.1 = false then ⟨.error (couldNotAddField field.type), r.2, [ev]⟩
      else
        let o := addFields B defn rest r.2
        ⟨o.val, o.st, ev :: o.log⟩

/-- The method `_createDefinition(name, dataType)`. -/
def BinaryMessageWriter._createDefinition {σ : Type} (B : Bridge σ) (self : BinaryMessageWriter)
    (name : String) (dataType : RosDatatype) (s : σ) : Outcome σ Nat :=
  if self._definitionRegistry = false then ⟨.error registryNotInitialized, s, []⟩
  else
    let c := B.registryCreate s name
    let o := addFields B c.1 dataType.fields c.2
    ⟨o.val.map (fun _ => c.1), o.st, Event.registryCreate name c.1 :: o.log⟩

/-- The method `registerDefinition(name, dataType)`. -/
def BinaryMessageWriter.registerDefinition {σ : Type} (B : Bridge σ) (self : BinaryMessageWriter)
    (name : String) (dataType : RosDatatype) (s : σ) : Outcome σ Nat :=
  let o := BinaryMessageWriter._createDefinition B self name dataType s
  match o.val with
  | .error e => ⟨.error e, o.st, o.log⟩
  | .ok definition =>
    let f := B.registryFinalize o.st
    if f.1 = false then
      ⟨.error ("Invalid definition \"" ++ name ++ "\""), f.2, o.log ++ [Event.registryFinalize f.1]⟩
    else ⟨.ok definition, f.2, o.log ++ [Event.registryFinalize f.1]⟩

/-! ## JavaScript and lodash helpers -/

/-- Whether a character is an ASCII decimal digit. -/
def isDigit (c : Char) : Bool := decide (48 ≤ c.toNat) && decide (c.toNat ≤ 57)

/-- The number a run of decimal digits denotes. -/
def digitsValue (cs : List Char) : Nat := cs.foldl (fun n c => 10 * n + (c.toNat - 48)) 0

/-- Whether a property key is an array index: the canonical decimal numeral
of a number below `2^32 - 1`. -/
def isArrayIndex (k : String) : Bool :=
  match k.data with
  | [] => false
  | [c] => isDigit c
  | c :: cs => isDigit c && (c.toNat != 48) && cs.all isDigit
      && decide (digitsValue (c :: cs) < 4294967295)

/-- The order of `Object.keys(o)`: the array-index keys in ascending numeric
order, then the other keys in insertion order. -/
def Object.keys {α : Type} (o : JsObject α) : List String :=
  ((o.map Prod.fst).filter isArrayIndex).insertionSort
      (fun a b => digitsValue a.data ≤ digitsValue b.data)
    ++ (o.map Prod.fst).filter (fun k => !isArrayIndex k)

/-- The function `sumBy` of lodash (a dependency, not among the sources): the
sum of the values, `0` for the empty array. -/
def sumBy {α : Type} (xs : List α) (f : α → Nat) : Nat := (xs.map f).sum

/-- The function `maxBy` of lodash (a dependency, not among the sources): the
first element whose value no other element exceeds, `none` (that is
`undefined`) for the empty array. -/
def maxBy {α : Type} (xs : List α) (f : α → Nat) : Option α :=
  xs.foldl (fun best x =>
    match best with
    | none => some x
    | some b => if f b < f x then some x else some b) none

/-- One step of lodash `groupBy(collection, "topic")`: the message is pushed on
the array of its topic, a new key being added after the existing ones. -/
def pushGroup : JsObject (List Message) → Message → JsObject (List Message)
  | [], m => [(m.topic, [m])]
  | (t, g) :: rest, m =>
    if t = m.topic then (t, g ++ [m]) :: rest else (t, g) :: pushGroup rest m

/-- The function `groupBy(rosBinaryMessages, "topic")` of lodash (a dependency,
not among the sources): an object whose keys are the topics in the order of
their first record, each with its records in input order. -/
def groupBy (messages : List Message) : JsObject (List Message) :=
  messages.foldl pushGroup []

/-! ## `BinaryMessageWriter.registerDefinitions` and `rewriteMessages` -/

/-- Message of the `TypeError` JavaScript throws on reading a property of
`undefined`. -/
def typeError : String := "TypeError: Cannot read property of undefined"

/-- The `map` of `registerDefinitions` over `Object.keys(dataTypes)`. -/
def createDefinitions {σ : Type} (B : Bridge σ) (self : BinaryMessageWriter)
    (dataTypes : RosDatatypes) : List String → σ → Outcome σ (List Nat)
  | [], s => ⟨.ok [], s, []⟩
  | type :: rest, s =>
    match dataTypes.lookup type with
    | none => ⟨.error typeError, s, []⟩
    | some dataType =>
      let o := BinaryMessageWriter._createDefinition B self type dataType s
      match o.val with
      | .error e => ⟨.error e, o.st, o.log⟩
      | .ok d =>
        let r := createDefinitions B self dataTypes rest o.st
        ⟨r.val.map (fun ds => d :: ds), r.st, o.log ++ r.log⟩

/-- The method `registerDefinitions(dataTypes)`. -/
def BinaryMessageWriter.registerDefinitions {σ : Type} (B : Bridge σ)
    (self : BinaryMessageWriter) (dataTypes : RosDatatypes) (s : σ) : Outcome σ (List Nat) :=
  let o := createDefinitions B self dataTypes (Object.keys dataTypes) s
  match o.val with
  | .error e => ⟨.error e, o.st, o.log⟩
  | .ok definitions =>
    if self._definitionRegistry = false then ⟨.error registryNotInitialized, o.st, o.log⟩
    else
      let f := B.registryFinalize o.st
      if f.1 = false then
        ⟨.error "Failed to validate definitions", f.2, o.log ++ [Event.registryFinalize f.1]⟩
      else ⟨.ok definitions, f.2, o.log ++ [Event.registryFinalize f.1]⟩

/-- The `messages.map` of `rewriteMessages`: each message is copied to the
staging region at `inDataPtr` and written; a negative offset throws, and the
messages after it are not visited. -/
def writeAll {σ : Type} (B : Bridge σ) (writer defn inDataPtr : Nat)
    (definitionName : Option String) : List Message → σ → Outcome σ (List Int)
  | [], s => ⟨.ok [], s, []⟩
  | m :: rest, s =>
    let s1 := B.heapSet s m.message inDataPtr
    let r := B.write s1 writer defn inDataPtr m.message.length
    let evs := [Event.heapSet m.message inDataPtr,
      Event.write writer defn inDataPtr m.message.length r.1]
    if r.1 < 0 then ⟨.error (couldNotWrite m.topic definitionName), r.2, evs⟩
    else
      let o := writeAll B writer defn inDataPtr definitionName rest r.2
      ⟨o.val.map (fun offsets => r.1 :: offsets), o.st, evs ++ o.log⟩

/-- The method `rewriteMessages(definitionName, messages)`. -/
def BinaryMessageWriter.rewriteMessages {σ : Type} (B : Bridge σ) (self : BinaryMessageWriter)
    (definitionName : Option String) (messages : List Message) (s : σ) :
    Outcome σ BinaryObjects :=
  if self._bridgeInstance = false then ⟨.error bridgeNotInitialized, s, []⟩
  else if self._definitionRegistry = false then ⟨.error registryNotInitialized, s, []⟩
  else
    match B.registryGet s definitionName with
    | none =>
      ⟨.error (noDefinitionFound definitionName), s, [Event.registryGet definitionName none]⟩
    | some definition =>
      let nw := B.newMessageWriter s
      let totalBytes := sumBy messages (fun m => m.message.length)
      let maxMessageBytes := (maxBy messages (fun m => m.message.length)).map
        (fun m => m.message.length)
      let s2 := B.reserve nw.2 nw.1 definition messages.length totalBytes
      let ma := B.malloc s2 maxMessageBytes
      let pre := [Event.registryGet definitionName (some definition),
        Event.newMessageWriter nw.1,
        Event.reserve nw.1 definition messages.length totalBytes,
        Event.malloc maxMessageBytes ma.1]
      if ma.1 = 0 then ⟨.error (couldNotAllocate maxMessageBytes), ma.2, pre⟩
      else
        let o := writeAll B nw.1 definition ma.1 definitionName messages ma.2
        match o.val with
        | .error e => ⟨.error e, o.st, pre ++ o.log⟩
        | .ok offsets =>
          let s3 := B.free o.st ma.1
          let buffer := B.getBuffer s3 nw.1
          let bigString := B.getBigString s3 nw.1
          let s4 := B.writerDelete s3 nw.1
          ⟨.ok ⟨definitionName, offsets, buffer, bigString⟩, s4,
            pre ++ o.log ++ [Event.free ma.1, Event.getBuffer nw.1, Event.getBigString nw.1,
              Event.writerDelete nw.1]⟩

/-! ## `RewriteBinaryDataProvider` -/

/-- What the `message` member of a returned record holds: the raw bytes of the
child provider (pass-through), or a view that `getObjects` made. -/
inductive Payload (β : Type) where
  | raw (bytes : List Nat)
  | view (b : β)
deriving DecidableEq, Repr

/-- A record of the `bobjects` array that `getMessages` returns. -/
structure Bobject (β : Type) where
  topic : String
  receiveTime : Time
  message : Payload β
deriving DecidableEq, Repr

/-- A record of `rosBinaryMessages` read as a record of `bobjects`, the object
itself being the same. -/
def Bobject.ofMessage {β : Type} (m : Message) : Bobject β :=
  ⟨m.topic, m.receiveTime, .raw m.message⟩

/-- A `Topic` of the initialization result. -/
structure Topic where
  name : String
  datatype : String
deriving DecidableEq, Repr

/-- The members of the child provider's `InitializationResult` that
`initialize` reads. -/
structure InitializationResult where
  datatypes : RosDatatypes
  topics : List Topic
deriving DecidableEq, Repr

/-- The fields of a `RewriteBinaryDataProvider` that the constructor or
`initialize` assign; `none` is a field never assigned (`undefined`). -/
structure RewriteBinaryDataProvider where
  _useBinaryObjects : Bool
  _writer : Option BinaryMessageWriter
  _datatypeByTopic : Option (JsObject String)
  _datatypes : Option RosDatatypes
deriving DecidableEq, Repr

/-- The constructor: only `_provider` and `_useBinaryObjects` are assigned. -/
def RewriteBinaryDataProvider.new (useBinaryObjects : Bool) : RewriteBinaryDataProvider :=
  { _useBinaryObjects := useBinaryObjects, _writer := none, _datatypeByTopic := none,
    _datatypes := none }

/-- The assignment `o[k] = v`: an existing key keeps its place. -/
def setProperty {α : Type} : JsObject α → String → α → JsObject α
  | [], k, v => [(k, v)]
  | (k', v') :: rest, k, v =>
    if k' = k then (k, v) :: rest else (k', v') :: setProperty rest k v

/-- The object built by `topics.forEach(topic => _datatypeByTopic[topic.name] =
topic.datatype)` from the empty object. -/
def datatypeByTopicOf (topics : List Topic) : JsObject String :=
  topics.foldl (fun o topic => setProperty o topic.name topic.datatype) []

/-- The method `initialize(extensionPoint)`, given the result of the child
provider's `initialize`.  It returns the provider as it is afterwards and the
child's result. -/
def RewriteBinaryDataProvider.initialize {σ : Type} (B : Bridge σ)
    (self : RewriteBinaryDataProvider) (result : InitializationResult) (s : σ) :
    Outcome σ (RewriteBinaryDataProvider × InitializationResult) :=
  if self._useBinaryObjects then
    let writer := BinaryMessageWriter.initialize BinaryMessageWriter.new
    let o := BinaryMessageWriter.registerDefinitions B writer result.datatypes s
    match o.val with
    | .ok _ =>
      ⟨.ok ({ self with _writer := some writer, _datatypes := some result.datatypes,
                        _datatypeByTopic := some (datatypeByTopicOf result.topics) }, result),
        o.st, Event.newBinaryMessageWriter :: o.log⟩
    | .error e =>
      ⟨.ok ({ self with _writer := some writer }, result), o.st,
        Event.newBinaryMessageWriter :: o.log
          ++ [Event.sendNotification "Failed to register type definitions" e]⟩
  else ⟨.ok (self, result), s, []⟩

/-- The function `getObjects` of `util/binaryObjects`, which is not among the
sources: a parameter, returning the views or throwing. -/
abbrev GetObjects (β : Type) :=
  Option RosDatatypes → Option String → List Nat → String → List Int → Except String (List β)

/-- The `binaryObjects.map((b, i) => ...)` of `getMessages`: the i-th view
with the topic and `messages[i].receiveTime`; reading `receiveTime` of a
missing `messages[i]` throws. -/
def wrapObjects {β : Type} (topic : String) :
    List β → List Message → Except String (List (Bobject β))
  | [], _ => .ok []
  | _ :: _, [] => .error typeError
  | b :: bs, m :: ms =>
    (wrapObjects topic bs ms).map (fun rs => ⟨topic, m.receiveTime, .view b⟩ :: rs)

/-- The `Object.keys(messagesByTopic).forEach` of `getMessages`, from the
records pushed so far: it returns the records pushed when it ends or throws. -/
def forEachTopic {σ β : Type} (B : Bridge σ) (getObjects : GetObjects β)
    (self : RewriteBinaryDataProvider) (messagesByTopic : JsObject (List Message)) :
    List String → List (Bobject β) → σ → Outcome σ Unit × List (Bobject β)
  | [], bobjects, s => (⟨.ok (), s, []⟩, bobjects)
  | topic :: rest, bobjects, s =>
    match self._datatypeByTopic with
    | none => (⟨.error typeError, s, []⟩, bobjects)
    | some datatypeByTopic =>
      let definitionName := datatypeByTopic.lookup topic
      match messagesByTopic.lookup topic, self._writer with
      | none, _ => (⟨.error typeError, s, []⟩, bobjects)
      | some _, none => (⟨.error typeError, s, []⟩, bobjects)
      | some messages, some writer =>
        let call := Event.rewriteMessages definitionName messages
        let o := BinaryMessageWriter.rewriteMessages B writer definitionName messages s
        match o.val with
        | .error e => (⟨.error e, o.st, call :: o.log⟩, bobjects)
        | .ok binary =>
          match getObjects self._datatypes (datatypeByTopic.lookup topic) binary.buffer
              binary.bigString binary.offsets with
          | .error e => (⟨.error e, o.st, call :: o.log⟩, bobjects)
          | .ok binaryObjects =>
            match wrapObjects topic binaryObjects messages with
            | .error e => (⟨.error e, o.st, call :: o.log⟩, bobjects)
            | .ok records =>
              let r := forEachTopic B getObjects self messagesByTopic rest
                (bobjects ++ records) o.st
              (⟨r.1.val, r.1.st, call :: o.log ++ r.1.log⟩, r.2)

/-- The function `TimeUtil.compare` of the rosbag package (a dependency, not
among the sources): the difference of the seconds or, when that is zero, of
the nanoseconds; negative when `left` is the earlier time. -/
def TimeUtil.compare (left right : Time) : Int :=
  let secDiff := left.sec - right.sec
  if secDiff ≠ 0 then secDiff else left.nsec - right.nsec

/-- The comparator passed to `bobjects.sort`:
`TimeUtil.compare(a.receiveTime, b.receiveTime) || naturalSort()(a.topic, b.topic)`. -/
def compareBobjects {β : Type} (naturalSort : String → String → Int) (a b : Bobject β) : Int :=
  let c := TimeUtil.compare a.receiveTime b.receiveTime
  if c ≠ 0 then c else naturalSort a.topic b.topic

/-- The method `Array.prototype.sort(compare)`: a stable sort, here by
insertion; `a` stays before `b` unless `compare(a, b) > 0`. -/
def jsSort {α : Type} (compare : α → α → Int) (xs : List α) : List α :=
  xs.insertionSort (fun a b => compare a b ≤ 0)

/-- The method `getMessages(start, end, subscriptions)`, given the
`rosBinaryMessages` of the child provider's result (`none` is `undefined`).
The value is the `bobjects` member of the result; the members
`rosBinaryMessages` and `parsedMessages` are always `undefined`. -/
def RewriteBinaryDataProvider.getMessages {σ β : Type} (B : Bridge σ)
    (getObjects : GetObjects β) (naturalSort : String → String → Int)
    (self : RewriteBinaryDataProvider) (rosBinaryMessages : Option (List Message)) (s : σ) :
    Outcome σ (Option (List (Bobject β))) :=
  if self._useBinaryObjects = false then
    ⟨.ok (rosBinaryMessages.map (fun ms => ms.map Bobject.ofMessage)), s, []⟩
  else
    let r : Outcome σ Unit × List (Bobject β) :=
      match rosBinaryMessages with
      | none => (⟨.ok (), s, []⟩, [])
      | some messages =>
        forEachTopic B getObjects self (groupBy messages) (Object.keys (groupBy messages)) [] s
    let caught :=
      match r.1.val with
      | .error e => [Event.sendNotification "Failed to write binary objects" e]
      | .ok _ => []
    ⟨.ok (some (jsSort (compareBobjects naturalSort) r.2)), r.1.st, r.1.log ++ caught⟩

/-! ## The natural order of topic names -/

/-- The key of a name under the natural order: each maximal run of decimal
digits becomes one entry `(48, value)`, every other character an entry
`(code, 0)`.  The first argument is the digit run being read. -/
def naturalKeyFrom : Option Nat → List Char → List (Nat × Nat)
  | none, [] => []
  | some n, [] => [(48, n)]
  | none, c :: cs =>
    if isDigit c then naturalKeyFrom (some (c.toNat - 48)) cs
    else (c.toNat, 0) :: naturalKeyFrom none cs
  | some n, c :: cs =>
    if isDigit c then naturalKeyFrom (some (10 * n + (c.toNat - 48))) cs
    else (48, n) :: (c.toNat, 0) :: naturalKeyFrom none cs

/-- Lexicographic comparison of two keys: negative, zero or positive. -/
def compareKeys : List (Nat × Nat) → List (Nat × Nat) → Int
  | [], [] => 0
  | [], _ :: _ => -1
  | _ :: _, [] => 1
  | a :: as, b :: bs =>
    if a.1 < b.1 then -1
    else if b.1 < a.1 then 1
    else if a.2 < b.2 then -1
    else if b.2 < a.2 then 1
    else compareKeys as bs

/-- Modelled from the spec: the comparator `naturalSort()` of
`util/naturalSort`, which is not among the sources.  The spec asks for a
natural, numeric-segment-aware order of topic names under which "a1", "a2",
"a10" ascend: names are compared segment by segment, digit runs by their
numeric value and other characters by their code. -/
def naturalSort (a b : String) : Int :=
  compareKeys (naturalKeyFrom none a.data) (naturalKeyFrom none b.data)

/-! ## A concrete bridge

A small deterministic bridge on which the embedding can be run: definitions
are registered under consecutive handles, a field is accepted, and recorded,
when its type is a known primitive, `reserve` records its two numbers,
`_malloc` hands out fresh pointers and keeps the set of live allocations, and `write` appends the staged bytes to the packed buffer and
returns where they start, or returns `-1` for a message shorter than four
bytes. -/

/-- State of the concrete bridge. -/
structure DemoState where
  definitions : List String
  finalized : Bool
  live : List Nat
  nextPtr : Nat
  staged : List Nat
  packed : List Nat
  fields : List (Nat × String)
  reserved : List (Nat × Nat)
deriving DecidableEq, Repr

/-- The state of a freshly instantiated bridge. -/
def DemoState.fresh : DemoState :=
  { definitions := [], finalized := false, live := [], nextPtr := 8, staged := [], packed := [],
    fields := [], reserved := [] }

/-- The primitive types the concrete bridge accepts in `addField`. -/
def demoPrimitives : List String := ["uint8", "int32", "uint32", "float64", "string"]

/-- The concrete bridge. -/
def demoBridge : Bridge DemoState where
  registryCreate := fun s name =>
    (s.definitions.length, { s with definitions := s.definitions ++ [name], finalized := false })
  addField := fun s defn type name _ _ =>
    if type ∈ demoPrimitives then (true, { s with fields := s.fields ++ [(defn, name)] })
    else (false, s)
  registryFinalize := fun s => (true, { s with finalized := true })
  registryGet := fun s name =>
    match name with
    | none => none
    | some n =>
      if s.finalized = true ∧ n ∈ s.definitions then some (s.definitions.indexOf n) else none
  newMessageWriter := fun s => (0, { s with packed := [] })
  reserve := fun s _ _ count totalBytes =>
    { s with reserved := s.reserved ++ [(count, totalBytes)] }
  malloc := fun s _ => (s.nextPtr, { s with live := s.nextPtr :: s.live, nextPtr := s.nextPtr + 8 })
  heapSet := fun s data _ => { s with staged := data }
  write := fun s _ _ _ dataLength =>
    if dataLength < 4 then (-1, s)
    else (s.packed.length, { s with packed := s.packed ++ s.staged.take dataLength })
  free := fun s ptr => { s with live := s.live.erase ptr }
  getBuffer := fun s _ => s.packed
  getBigString := fun _ _ => ""
  writerDelete := fun s _ => s

/-- A concrete `getObjects`: one view per offset, the view being the type name
and the offset. -/
def demoGetObjects : GetObjects (Option String × Int) :=
  fun _ typeName _ _ offsets => .ok (offsets.map (fun o => (typeName, o)))

/-- A catalog with one record type `T`: two data fields and one constant. -/
def demoDatatypes : RosDatatypes :=
  [("T", ⟨[⟨"uint32", "x", false, none, false⟩, ⟨"uint8", "K", false, none, true⟩,
           ⟨"float64", "v", true, some 3, false⟩]⟩)]

/-- An initialization result of a child provider: four topics of type `T`. -/
def demoResult : InitializationResult :=
  ⟨demoDatatypes, [⟨"a1", "T"⟩, ⟨"a10", "T"⟩, ⟨"a2", "T"⟩, ⟨"b", "T"⟩]⟩

/-- A catalog the concrete bridge rejects: a field of unknown type. -/
def demoBadResult : InitializationResult :=
  ⟨[("T", ⟨[⟨"quaternion", "q", false, none, false⟩]⟩)], [⟨"a1", "T"⟩]⟩

/-- An initialized `BinaryMessageWriter`. -/
def demoWriter : BinaryMessageWriter := BinaryMessageWriter.initialize BinaryMessageWriter.new

/-- The provider after `initialize` with `demoResult` in rewrite mode. -/
def demoProvider : RewriteBinaryDataProvider :=
  { _useBinaryObjects := true, _writer := some demoWriter,
    _datatypeByTopic := some [("a1", "T"), ("a10", "T"), ("a2", "T"), ("b", "T")],
    _datatypes := some demoDatatypes }

/-- The state of the concrete bridge after that `initialize`. -/
def demoReady : DemoState :=
  { definitions := ["T"], finalized := true, live := [], nextPtr := 8, staged := [], packed := [],
    fields := [(0, "x"), (0, "v")], reserved := [] }

/-- A batch of three records with one receive time, on topics "a10", "a2", "a1". -/
def demoBatch : List Message :=
  [⟨"a10", ⟨1, 0⟩, [1, 2, 3, 4]⟩, ⟨"a2", ⟨1, 0⟩, [5, 6, 7, 8]⟩, ⟨"a1", ⟨1, 0⟩, [9, 9, 9, 9, 9]⟩]

/-- A batch of two topics with two records on "a2", the later one first. -/
def demoMixedBatch : List Message :=
  [⟨"a2", ⟨2, 0⟩, [1, 2, 3, 4]⟩, ⟨"a1", ⟨1, 500⟩, [5, 6, 7, 8, 9]⟩, ⟨"a2", ⟨1, 0⟩, [4, 3, 2, 1]⟩]

/-- A batch whose second topic has a record too short to write. -/
def demoTruncatedBatch : List Message :=
  [⟨"a1", ⟨1, 0⟩, [1, 2, 3, 4]⟩, ⟨"b", ⟨0, 0⟩, [5]⟩]

/-! ## Vocabulary of the statements -/

/-- The events of staging and writing `messages` in order, the i-th write
returning the i-th of `offsets`. -/
def writeEvents (writer defn ptr : Nat) : List Message → List Int → List Event
  | m :: ms, off :: offs =>
    Event.heapSet m.message ptr :: Event.write writer defn ptr m.message.length off
      :: writeEvents writer defn ptr ms offs
  | _, _ => []

/-- The events with which `rewriteMessages` starts once the definition is
found: the registry lookup, the new message writer, `reserve` and `_malloc`
with the arguments given. -/
def preamble (definitionName : Option String) (definition writer count totalBytes : Nat)
    (size : Option Nat) (ptr : Nat) : List Event :=
  [Event.registryGet definitionName (some definition), Event.newMessageWriter writer,
    Event.reserve writer definition count totalBytes, Event.malloc size ptr]

/-- The events with which a successful `rewriteMessages` ends. -/
def epilogue (writer ptr : Nat) : List Event :=
  [Event.free ptr, Event.getBuffer writer, Event.getBigString writer, Event.writerDelete writer]

/-- The offsets that the bridge's `write` returns when the records are staged
at `ptr` and written one after the other, in input order, from bridge state
`s`: the i-th entry is the return value of the write of the i-th record. -/
def writerReturns {σ : Type} (B : Bridge σ) (writer defn ptr : Nat) :
    List Message → σ → List Int
  | [], _ => []
  | m :: ms, s =>
    (B.write (B.heapSet s m.message ptr) writer defn ptr m.message.length).1 ::
      writerReturns B writer defn ptr ms
        (B.write (B.heapSet s m.message ptr) writer defn ptr m.message.length).2

/-- The bridge state after the records were staged and written one after the
other from state `s`. -/
def writerFinal {σ : Type} (B : Bridge σ) (writer defn ptr : Nat) : List Message → σ → σ
  | [], s => s
  | m :: ms, s =>
    writerFinal B writer defn ptr ms
      (B.write (B.heapSet s m.message ptr) writer defn ptr m.message.length).2

/-- The pointer that the bridge's `_malloc` returns when it is called, after
`new MessageWriter()` and `reserve` with the record count and the sum of the
byte lengths, with the maximum byte length of a record. -/
def stagingPtr {σ : Type} (B : Bridge σ) (s : σ) (definition : Nat) (messages : List Message) :
    Nat :=
  (B.malloc
    (B.reserve (B.newMessageWriter s).2 (B.newMessageWriter s).1 definition messages.length
      (sumBy messages (fun m => m.message.length)))
    ((maxBy messages (fun m => m.message.length)).map (fun m => m.message.length))).1

/-- The bridge state that this call of `_malloc` leaves. -/
def stagedState {σ : Type} (B : Bridge σ) (s : σ) (definition : Nat) (messages : List Message) :
    σ :=
  (B.malloc
    (B.reserve (B.newMessageWriter s).2 (B.newMessageWriter s).1 definition messages.length
      (sumBy messages (fun m => m.message.length)))
    ((maxBy messages (fun m => m.message.length)).map (fun m => m.message.length))).2

/-- What the bridge's `addField` returns when it is called on definition `defn`
for each of `fields` in order, with the field's type, name, `isArray` and
`arrayLength ?? -1`, from bridge state `s`. -/
def addFieldResults {σ : Type} (B : Bridge σ) (defn : Nat) : List RosMsgField → σ → List Bool
  | [], _ => []
  | f :: fs, s =>
    (B.addField s defn f.type f.name f.isArray (f.arrayLength.getD (-1))).1 ::
      addFieldResults B defn fs
        (B.addField s defn f.type f.name f.isArray (f.arrayLength.getD (-1))).2

/-- The bridge state after `addField` was called for each of `fields` in
order from state `s`. -/
def addFieldState {σ : Type} (B : Bridge σ) (defn : Nat) : List RosMsgField → σ → σ
  | [], s => s
  | f :: fs, s =>
    addFieldState B defn fs
      (B.addField s defn f.type f.name f.isArray (f.arrayLength.getD (-1))).2

/-- Whether an event is a call of `reserve`. -/
def Event.isReserve : Event → Bool
  | .reserve _ _ _ _ => true
  | _ => false

/-- Whether an event is a call of `_malloc`. -/
def Event.isMalloc : Event → Bool
  | .malloc _ _ => true
  | _ => false

/-- Whether an event is a call of `write`. -/
def Event.isWrite : Event → Bool
  | .write _ _ _ _ _ => true
  | _ => false

/-- Whether an event is a call of `_free`. -/
def Event.isFree : Event → Bool
  | .free _ => true
  | _ => false

/-- The calls of `rewriteMessages` in a log, in order, with their arguments. -/
def rewriteCalls : List Event → List (Option String × List Message)
  | [] => []
  | .rewriteMessages definitionName messages :: rest =>
    (definitionName, messages) :: rewriteCalls rest
  | _ :: rest => rewriteCalls rest

/-- Strictly earlier receive time: by seconds, then by nanoseconds. -/
def Time.before (a b : Time) : Prop :=
  a.sec < b.sec ∨ (a.sec = b.sec ∧ a.nsec < b.nsec)

/-- The order the output of `getMessages` is claimed to have: earlier receive
time first, and for equal receive times the topic that the natural order does
not place after the other. -/
def inOrder {β : Type} (naturalSort : String → String → Int) (a b : Bobject β) : Prop :=
  Time.before a.receiveTime b.receiveTime ∨
    (a.receiveTime = b.receiveTime ∧ naturalSort a.topic b.topic ≤ 0)

/-- The records built from the views of one topic group: the i-th carries the
topic, the receive time of the i-th record of the group and the i-th view. -/
def groupRecords {β : Type} (topic : String) (views : List β) (messages : List Message) :
    List (Bobject β) :=
  List.zipWith (fun b m => ⟨topic, m.receiveTime, .view b⟩) views messages

deriving instance DecidableEq for Except

/-! ## Theorems -/

theorem mem_writeEvents {writer defn ptr : Nat} {e : Event} :
    ∀ {messages : List Message} {offsets : List Int}, e ∈ writeEvents writer defn ptr messages offsets →
      (∃ data, e = Event.heapSet data ptr) ∨
      (∃ n off, e = Event.write writer defn ptr n off ∧ off ∈ offsets)
  | [], _, h => by simp [writeEvents] at h
  | _ :: _, [], h => by simp [writeEvents] at h
  | m :: ms, off :: offs, h => by
    simp only [writeEvents, List.mem_cons] at h
    rcases h with h | h | h
    · exact Or.inl ⟨_, h⟩
    · exact Or.inr ⟨_, _, h, by simp⟩
    · rcases mem_writeEvents h with h' | ⟨n, o, h1, h2⟩
      · exact Or.inl h'
      · exact Or.inr ⟨n, o, h1, by simp [h2]⟩

theorem writeAll_run {σ : Type} (B : Bridge σ) (writer defn ptr : Nat) (name : Option String) :
    ∀ (messages : List Message) (s : σ),
      (∃ offsets, (writeAll B writer defn ptr name messages s).val = .ok offsets ∧
        offsets.length = messages.length ∧ (∀ x ∈ offsets, 0 ≤ x) ∧
        (writeAll B writer defn ptr name messages s).log
          = writeEvents writer defn ptr messages offsets) ∨
      (∃ pre m post offsets off, messages = pre ++ m :: post ∧
        offsets.length = pre.length ∧ (∀ x ∈ offsets, 0 ≤ x) ∧ off < 0 ∧
        (writeAll B writer defn ptr name messages s).val = .error (couldNotWrite m.topic name) ∧
        (writeAll B writer defn ptr name messages s).log
          = writeEvents writer defn ptr pre offsets
            ++ [Event.heapSet m.message ptr, Event.write writer defn ptr m.message.length off])
  | [], s => Or.inl ⟨[], by simp [writeAll, writeEvents]⟩
  | m :: rest, s => by
    by_cases hneg : (B.write (B.heapSet s m.message ptr) writer defn ptr m.message.length).1 < 0
    · refine Or.inr ⟨[], m, rest, [], _, rfl, rfl, by simp, hneg, ?_, ?_⟩
      · simp [writeAll, hneg]
      · simp [writeAll, hneg, writeEvents]
    · have hnn := Int.not_lt.mp hneg
      rcases writeAll_run B writer defn ptr name rest
          (B.write (B.heapSet s m.message ptr) writer defn ptr m.message.length).2 with
        ⟨offs, hv, hl, hpos, hlog⟩ | ⟨pre, m', post, offs, off, hm, hl, hpos, hoff, hv, hlog⟩
      · refine Or.inl ⟨(B.write (B.heapSet s m.message ptr) writer defn ptr m.message.length).1 :: offs, ?_, by simp [hl], ?_, ?_⟩
        · simp [writeAll, hneg, hv, Except.map]
        · intro x hx
          rcases List.mem_cons.mp hx with rfl | hx
          · exact hnn
          · exact hpos x hx
        · simp [writeAll, hneg, hlog, writeEvents]
      · refine Or.inr ⟨m :: pre, m', post,
          (B.write (B.heapSet s m.message ptr) writer defn ptr m.message.length).1 :: offs, off, by simp [hm], by simp [hl], ?_, hoff, ?_, ?_⟩
        · intro x hx
          rcases List.mem_cons.mp hx with rfl | hx
          · exact hnn
          · exact hpos x hx
        · simp [writeAll, hneg, hv, Except.map]
        · simp [writeAll, hneg, hlog, writeEvents]

theorem rewriteMessages_run {σ : Type} (B : Bridge σ) (self : BinaryMessageWriter)
    (name : Option String) (messages : List Message) (s : σ) (definition : Nat)
    (hb : self._bridgeInstance = true) (hr : self._definitionRegistry = true)
    (hdef : B.registryGet s name = some definition) :
    ∃ writer ptr s1,
      (ptr = 0 ∧
        (BinaryMessageWriter.rewriteMessages B self name messages s).val
          = .error (couldNotAllocate
              ((maxBy messages (fun m => m.message.length)).map (fun m => m.message.length))) ∧
        (BinaryMessageWriter.rewriteMessages B self name messages s).log
          = preamble name definition writer messages.length
              (sumBy messages (fun m => m.message.length))
              ((maxBy messages (fun m => m.message.length)).map (fun m => m.message.length)) ptr) ∨
      (ptr ≠ 0 ∧ ∃ e, (writeAll B writer definition ptr name messages s1).val = .error e ∧
        (BinaryMessageWriter.rewriteMessages B self name messages s).val = .error e ∧
        (BinaryMessageWriter.rewriteMessages B self name messages s).log
          = preamble name definition writer messages.length
              (sumBy messages (fun m => m.message.length))
              ((maxBy messages (fun m => m.message.length)).map (fun m => m.message.length)) ptr
            ++ (writeAll B writer definition ptr name messages s1).log) ∨
      (ptr ≠ 0 ∧ ∃ offsets buffer bigString,
        (writeAll B writer definition ptr name messages s1).val = .ok offsets ∧
        (BinaryMessageWriter.rewriteMessages B self name messages s).val
          = .ok ⟨name, offsets, buffer, bigString⟩ ∧
        (BinaryMessageWriter.rewriteMessages B self name messages s).log
          = preamble name definition writer messages.length
              (sumBy messages (fun m => m.message.length))
              ((maxBy messages (fun m => m.message.length)).map (fun m => m.message.length)) ptr
            ++ (writeAll B writer definition ptr name messages s1).log
            ++ epilogue writer ptr) := by
  refine ⟨(B.newMessageWriter s).1,
    (B.malloc (B.reserve (B.newMessageWriter s).2 (B.newMessageWriter s).1 definition
      messages.length (sumBy messages (fun m => m.message.length)))
      ((maxBy messages (fun m => m.message.length)).map (fun m => m.message.length))).1,
    (B.malloc (B.reserve (B.newMessageWriter s).2 (B.newMessageWriter s).1 definition
      messages.length (sumBy messages (fun m => m.message.length)))
      ((maxBy messages (fun m => m.message.length)).map (fun m => m.message.length))).2, ?_⟩
  unfold BinaryMessageWriter.rewriteMessages
  simp only [hb, hr, hdef, Bool.true_eq_false, if_false]
  split
  · rename_i h0
    exact Or.inl ⟨h0, rfl, rfl⟩
  · rename_i h0
    split
    · rename_i e he
      exact Or.inr (Or.inl ⟨h0, e, he, rfl, rfl⟩)
    · rename_i offsets he
      exact Or.inr (Or.inr ⟨h0, offsets, _, _, he, rfl, rfl⟩)

theorem maxBy_fold_some {α : Type} (f : α → Nat) :
    ∀ (xs : List α) (b : α), ∃ m,
      xs.foldl (fun best x =>
        match best with
        | none => some x
        | some b => if f b < f x then some x else some b) (some b) = some m ∧
      f b ≤ f m ∧ (m = b ∨ m ∈ xs) ∧ ∀ x ∈ xs, f x ≤ f m
  | [], b => ⟨b, rfl, le_refl _, Or.inl rfl, by simp⟩
  | x :: xs, b => by
    simp only [List.foldl_cons]
    by_cases h : f b < f x
    · obtain ⟨m, hm, hle, hmem, hall⟩ := maxBy_fold_some f xs x
      refine ⟨m, by simpa [h] using hm, by omega, ?_, ?_⟩
      · rcases hmem with rfl | hmem
        · exact Or.inr (by simp)
        · exact Or.inr (by simp [hmem])
      · intro y hy
        rcases List.mem_cons.mp hy with rfl | hy
        · exact hle
        · exact hall y hy
    · obtain ⟨m, hm, hle, hmem, hall⟩ := maxBy_fold_some f xs b
      refine ⟨m, by simpa [h] using hm, hle, ?_, ?_⟩
      · rcases hmem with rfl | hmem
        · exact Or.inl rfl
        · exact Or.inr (by simp [hmem])
      · intro y hy
        rcases List.mem_cons.mp hy with rfl | hy
        · omega
        · exact hall y hy

theorem maxBy_spec {α : Type} (f : α → Nat) (xs : List α) (hne : xs ≠ []) :
    ∃ m, m ∈ xs ∧ maxBy xs f = some m ∧ ∀ x ∈ xs, f x ≤ f m := by
  cases xs with
  | nil => exact absurd rfl hne
  | cons x xs =>
    obtain ⟨m, hm, hle, hmem, hall⟩ := maxBy_fold_some f xs x
    refine ⟨m, ?_, ?_, ?_⟩
    · rcases hmem with rfl | hmem
      · simp
      · simp [hmem]
    · simpa [maxBy] using hm
    · intro y hy
      rcases List.mem_cons.mp hy with rfl | hy
      · exact hle
      · exact hall y hy

theorem le_sumBy {α : Type} (f : α → Nat) : ∀ (xs : List α), ∀ x ∈ xs, f x ≤ sumBy xs f
  | [], _, h => by simp at h
  | y :: ys, x, h => by
    have ih := le_sumBy f ys
    simp only [sumBy, List.map_cons, List.sum_cons] at ih ⊢
    rcases List.mem_cons.mp h with rfl | h
    · omega
    · have := ih x h
      omega

theorem writeAll_log_flags {σ : Type} (B : Bridge σ) (writer defn ptr : Nat)
    (name : Option String) :
    ∀ (messages : List Message) (s : σ), ∀ e ∈ (writeAll B writer defn ptr name messages s).log,
      e.isReserve = false ∧ e.isMalloc = false ∧ e.isFree = false
  | [], s, e, h => by simp [writeAll] at h
  | m :: rest, s, e, h => by
    unfold writeAll at h
    simp only at h
    split at h
    · simp only [List.mem_cons, List.mem_singleton, List.not_mem_nil, or_false] at h
      rcases h with rfl | rfl <;> simp [Event.isReserve, Event.isMalloc, Event.isFree]
    · simp only [List.cons_append, List.nil_append, List.mem_cons] at h
      rcases h with rfl | rfl | h
      · simp [Event.isReserve, Event.isMalloc, Event.isFree]
      · simp [Event.isReserve, Event.isMalloc, Event.isFree]
      · exact writeAll_log_flags B writer defn ptr name rest _ e h

theorem writerReturns_length {σ : Type} (B : Bridge σ) (writer defn ptr : Nat) :
    ∀ (messages : List Message) (s : σ),
      (writerReturns B writer defn ptr messages s).length = messages.length
  | [], _ => rfl
  | m :: ms, s => by
    simp [writerReturns, writerReturns_length B writer defn ptr ms]

theorem writeAll_of_nonneg {σ : Type} (B : Bridge σ) (writer defn ptr : Nat)
    (name : Option String) :
    ∀ (messages : List Message) (s : σ),
      (∀ off ∈ writerReturns B writer defn ptr messages s, 0 ≤ off) →
      (writeAll B writer defn ptr name messages s).val
        = .ok (writerReturns B writer defn ptr messages s) ∧
      (writeAll B writer defn ptr name messages s).st = writerFinal B writer defn ptr messages s ∧
      (writeAll B writer defn ptr name messages s).log
        = writeEvents writer defn ptr messages (writerReturns B writer defn ptr messages s)
  | [], s, _ => by simp [writeAll, writerReturns, writerFinal, writeEvents]
  | m :: ms, s, h => by
    have h0 : ¬ (B.write (B.heapSet s m.message ptr) writer defn ptr m.message.length).1 < 0 := by
      have := h (B.write (B.heapSet s m.message ptr) writer defn ptr m.message.length).1
        (by simp [writerReturns])
      omega
    have ih := writeAll_of_nonneg B writer defn ptr name ms
      (B.write (B.heapSet s m.message ptr) writer defn ptr m.message.length).2
      (fun off hoff => h off (by simp [writerReturns, hoff]))
    refine ⟨?_, ?_, ?_⟩
    · simp [writeAll, h0, ih.1, Except.map, writerReturns]
    · simp [writeAll, h0, ih.2.1, writerFinal]
    · simp [writeAll, h0, ih.2.2, writerReturns, writeEvents]

theorem rewriteMessages_trace {σ : Type} (B : Bridge σ) (self : BinaryMessageWriter)
    (name : Option String) (messages : List Message) (s : σ) (definition : Nat)
    (hb : self._bridgeInstance = true) (hr : self._definitionRegistry = true)
    (hdef : B.registryGet s name = some definition) :
    (stagingPtr B s definition messages = 0 →
      (BinaryMessageWriter.rewriteMessages B self name messages s).threw = true ∧
      (BinaryMessageWriter.rewriteMessages B self name messages s).st
        = stagedState B s definition messages ∧
      (BinaryMessageWriter.rewriteMessages B self name messages s).log
        = preamble name definition (B.newMessageWriter s).1 messages.length
            (sumBy messages (fun m => m.message.length))
            ((maxBy messages (fun m => m.message.length)).map (fun m => m.message.length))
            (stagingPtr B s definition messages)) ∧
    (stagingPtr B s definition messages ≠ 0 →
      ∀ e, (writeAll B (B.newMessageWriter s).1 definition (stagingPtr B s definition messages)
          name messages (stagedState B s definition messages)).val = .error e →
      (BinaryMessageWriter.rewriteMessages B self name messages s).val = .error e ∧
      (BinaryMessageWriter.rewriteMessages B self name messages s).st
        = (writeAll B (B.newMessageWriter s).1 definition (stagingPtr B s definition messages)
            name messages (stagedState B s definition messages)).st ∧
      (BinaryMessageWriter.rewriteMessages B self name messages s).log
        = preamble name definition (B.newMessageWriter s).1 messages.length
            (sumBy messages (fun m => m.message.length))
            ((maxBy messages (fun m => m.message.length)).map (fun m => m.message.length))
            (stagingPtr B s definition messages)
          ++ (writeAll B (B.newMessageWriter s).1 definition
              (stagingPtr B s definition messages) name messages
              (stagedState B s definition messages)).log) ∧
    (stagingPtr B s definition messages ≠ 0 →
      ∀ offsets, (writeAll B (B.newMessageWriter s).1 definition
          (stagingPtr B s definition messages) name messages
          (stagedState B s definition messages)).val = .ok offsets →
      (BinaryMessageWriter.rewriteMessages B self name messages s).val
        = .ok ⟨name, offsets,
            B.getBuffer (B.free (writeAll B (B.newMessageWriter s).1 definition
              (stagingPtr B s definition messages) name messages
              (stagedState B s definition messages)).st (stagingPtr B s definition messages))
              (B.newMessageWriter s).1,
            B.getBigString (B.free (writeAll B (B.newMessageWriter s).1 definition
              (stagingPtr B s definition messages) name messages
              (stagedState B s definition messages)).st (stagingPtr B s definition messages))
              (B.newMessageWriter s).1⟩ ∧
      (BinaryMessageWriter.rewriteMessages B self name messages s).st
        = B.writerDelete (B.free (writeAll B (B.newMessageWriter s).1 definition
              (stagingPtr B s definition messages) name messages
              (stagedState B s definition messages)).st (stagingPtr B s definition messages))
            (B.newMessageWriter s).1 ∧
      (BinaryMessageWriter.rewriteMessages B self name messages s).log
        = preamble name definition (B.newMessageWriter s).1 messages.length
            (sumBy messages (fun m => m.message.length))
            ((maxBy messages (fun m => m.message.length)).map (fun m => m.message.length))
            (stagingPtr B s definition messages)
          ++ (writeAll B (B.newMessageWriter s).1 definition
              (stagingPtr B s definition messages) name messages
              (stagedState B s definition messages)).log
          ++ epilogue (B.newMessageWriter s).1 (stagingPtr B s definition messages)) := by
  refine ⟨fun h0 => ?_, fun h0 e he => ?_, fun h0 offsets ho => ?_⟩
  · unfold stagingPtr at h0
    unfold BinaryMessageWriter.rewriteMessages stagingPtr stagedState
    simp only [hb, hr, hdef, Bool.true_eq_false, if_false, h0, if_true, Outcome.threw, preamble,
      and_self]
  · unfold stagingPtr stagedState at he
    unfold stagingPtr at h0
    unfold BinaryMessageWriter.rewriteMessages stagingPtr stagedState
    simp only [hb, hr, hdef, Bool.true_eq_false, if_false, h0, he, preamble, and_self]
  · unfold stagingPtr stagedState at ho
    unfold stagingPtr at h0
    unfold BinaryMessageWriter.rewriteMessages stagingPtr stagedState
    simp only [hb, hr, hdef, Bool.true_eq_false, if_false, h0, ho, preamble, epilogue, and_self]

/-- C10. For a batch of one or more records and a registered definition,
`rewriteMessages` calls the bridge's `reserve` exactly once, before any write,
with the record count and the sum of the records' byte lengths, and allocates
the one staging region by the bridge's `_malloc` with the maximum byte length
of a record of the batch; so every record's byte length is at most the staging
size and at most the reserved total.  The writes then run from the state that
this `_malloc` left, with the pointer it returned. -/
theorem rewriteMessages_reserves_total_and_max {σ : Type} (B : Bridge σ)
    (self : BinaryMessageWriter) (name : Option String) (messages : List Message) (s : σ)
    (definition : Nat)
    (hb : self._bridgeInstance = true) (hr : self._definitionRegistry = true)
    (hdef : B.registryGet s name = some definition) (hne : messages ≠ []) :
    ∃ size rest,
      (∃ m ∈ messages, m.message.length = size) ∧
      (∀ m ∈ messages, m.message.length ≤ size ∧
        m.message.length ≤ (messages.map (fun m => m.message.length)).sum) ∧
      stagingPtr B s definition messages
        = (B.malloc
            (B.reserve (B.newMessageWriter s).2 (B.newMessageWriter s).1 definition
              messages.length ((messages.map (fun m => m.message.length)).sum))
            (some size)).1 ∧
      stagedState B s definition messages
        = (B.malloc
            (B.reserve (B.newMessageWriter s).2 (B.newMessageWriter s).1 definition
              messages.length ((messages.map (fun m => m.message.length)).sum))
            (some size)).2 ∧
      (BinaryMessageWriter.rewriteMessages B self name messages s).log
        = [Event.registryGet name (some definition),
            Event.newMessageWriter (B.newMessageWriter s).1,
            Event.reserve (B.newMessageWriter s).1 definition messages.length
              ((messages.map (fun m => m.message.length)).sum),
            Event.malloc (some size) (stagingPtr B s definition messages)] ++ rest ∧
      (∀ e ∈ rest, e.isReserve = false ∧ e.isMalloc = false) ∧
      (stagingPtr B s definition messages = 0 →
        rest = [] ∧
        (BinaryMessageWriter.rewriteMessages B self name messages s).threw = true ∧
        (BinaryMessageWriter.rewriteMessages B self name messages s).st
          = stagedState B s definition messages) ∧
      (stagingPtr B s definition messages ≠ 0 →
        (writeAll B (B.newMessageWriter s).1 definition (stagingPtr B s definition messages)
          name messages (stagedState B s definition messages)).threw = true →
        rest = (writeAll B (B.newMessageWriter s).1 definition
          (stagingPtr B s definition messages) name messages
          (stagedState B s definition messages)).log ∧
        (BinaryMessageWriter.rewriteMessages B self name messages s).st
          = (writeAll B (B.newMessageWriter s).1 definition
              (stagingPtr B s definition messages) name messages
              (stagedState B s definition messages)).st) ∧
      (stagingPtr B s definition messages ≠ 0 →
        (writeAll B (B.newMessageWriter s).1 definition (stagingPtr B s definition messages)
          name messages (stagedState B s definition messages)).threw = false →
        rest = (writeAll B (B.newMessageWriter s).1 definition
            (stagingPtr B s definition messages) name messages
            (stagedState B s definition messages)).log
          ++ [Event.free (stagingPtr B s definition messages),
              Event.getBuffer (B.newMessageWriter s).1,
              Event.getBigString (B.newMessageWriter s).1,
              Event.writerDelete (B.newMessageWriter s).1] ∧
        (BinaryMessageWriter.rewriteMessages B self name messages s).st
          = B.writerDelete
              (B.free (writeAll B (B.newMessageWriter s).1 definition
                (stagingPtr B s definition messages) name messages
                (stagedState B s definition messages)).st
                (stagingPtr B s definition messages))
              (B.newMessageWriter s).1) := by
  obtain ⟨mx, hmem, hmax, hall⟩ := maxBy_spec (fun m : Message => m.message.length) messages hne
  have hsum := le_sumBy (fun m : Message => m.message.length) messages
  have hbound : ∀ m ∈ messages, m.message.length ≤ mx.message.length ∧
      m.message.length ≤ (messages.map (fun m => m.message.length)).sum :=
    fun m hm => ⟨hall m hm, hsum m hm⟩
  have hP : stagingPtr B s definition messages
      = (B.malloc
          (B.reserve (B.newMessageWriter s).2 (B.newMessageWriter s).1 definition
            messages.length ((messages.map (fun m => m.message.length)).sum))
          (some mx.message.length)).1 := by
    simp [stagingPtr, hmax, sumBy]
  have hS : stagedState B s definition messages
      = (B.malloc
          (B.reserve (B.newMessageWriter s).2 (B.newMessageWriter s).1 definition
            messages.length ((messages.map (fun m => m.message.length)).sum))
          (some mx.message.length)).2 := by
    simp [stagedState, hmax, sumBy]
  obtain ⟨t0, t1, t2⟩ := rewriteMessages_trace B self name messages s definition hb hr hdef
  simp only [hmax, Option.map_some', preamble, sumBy] at t0 t1 t2
  have hflags := writeAll_log_flags B (B.newMessageWriter s).1 definition
    (stagingPtr B s definition messages) name messages (stagedState B s definition messages)
  by_cases h0 : stagingPtr B s definition messages = 0
  · obtain ⟨hthrew, hst, hlog⟩ := t0 h0
    refine ⟨mx.message.length, [], ⟨mx, hmem, rfl⟩, hbound, hP, hS, by simpa using hlog,
      by simp, fun _ => ⟨rfl, hthrew, hst⟩, fun h => absurd h0 h, fun h => absurd h0 h⟩
  · cases hv : (writeAll B (B.newMessageWriter s).1 definition
        (stagingPtr B s definition messages) name messages
        (stagedState B s definition messages)).val with
    | error e =>
      obtain ⟨_, hst, hlog⟩ := t1 h0 e hv
      refine ⟨mx.message.length, _, ⟨mx, hmem, rfl⟩, hbound, hP, hS, hlog, ?_,
        fun h => absurd h h0, fun _ _ => ⟨rfl, hst⟩, fun _ hf => ?_⟩
      · intro e he
        exact ⟨(hflags e he).1, (hflags e he).2.1⟩
      · simp [Outcome.threw, hv] at hf
    | ok offsets =>
      obtain ⟨_, hst, hlog⟩ := t2 h0 offsets hv
      refine ⟨mx.message.length, _, ⟨mx, hmem, rfl⟩, hbound, hP, hS,
        by rw [hlog, List.append_assoc]; rfl, ?_,
        fun h => absurd h h0, fun _ ht => ?_, fun _ _ => ⟨rfl, hst⟩⟩
      · intro e he
        rcases List.mem_append.mp he with he | he
        · exact ⟨(hflags e he).1, (hflags e he).2.1⟩
        · simp only [epilogue, List.mem_cons, List.mem_singleton, List.not_mem_nil,
            or_false] at he
          rcases he with rfl | rfl | rfl | rfl <;> simp [Event.isReserve, Event.isMalloc]
      · simp [Outcome.threw, hv] at ht

/-- C5. With a registered definition, a staging allocation that succeeds (the
bridge's `_malloc` returns a non-null pointer) and writes that all return a
non-negative offset, `rewriteMessages` returns `BinaryObjects` whose `dataType`
is the definition name and whose `offsets` has one entry per input record, the
i-th being the offset that the bridge's `write` returned for the i-th record,
staged and written in input order; every entry is non-negative.  The buffer
and the string are what the bridge holds after the staging region was freed. -/
theorem rewriteMessages_offsets_in_input_order {σ : Type} (B : Bridge σ)
    (self : BinaryMessageWriter) (name : Option String) (messages : List Message) (s : σ)
    (definition : Nat)
    (hb : self._bridgeInstance = true) (hr : self._definitionRegistry = true)
    (hdef : B.registryGet s name = some definition)
    (hmalloc : stagingPtr B s definition messages ≠ 0)
    (hwrite : ∀ off ∈ writerReturns B (B.newMessageWriter s).1 definition
        (stagingPtr B s definition messages) messages (stagedState B s definition messages),
      0 ≤ off) :
    (BinaryMessageWriter.rewriteMessages B self name messages s).val
      = .ok ⟨name,
          writerReturns B (B.newMessageWriter s).1 definition
            (stagingPtr B s definition messages) messages (stagedState B s definition messages),
          B.getBuffer
            (B.free (writerFinal B (B.newMessageWriter s).1 definition
              (stagingPtr B s definition messages) messages
              (stagedState B s definition messages)) (stagingPtr B s definition messages))
            (B.newMessageWriter s).1,
          B.getBigString
            (B.free (writerFinal B (B.newMessageWriter s).1 definition
              (stagingPtr B s definition messages) messages
              (stagedState B s definition messages)) (stagingPtr B s definition messages))
            (B.newMessageWriter s).1⟩ ∧
    (writerReturns B (B.newMessageWriter s).1 definition
      (stagingPtr B s definition messages) messages
      (stagedState B s definition messages)).length = messages.length ∧
    (BinaryMessageWriter.rewriteMessages B self name messages s).st
      = B.writerDelete
          (B.free (writerFinal B (B.newMessageWriter s).1 definition
            (stagingPtr B s definition messages) messages
            (stagedState B s definition messages)) (stagingPtr B s definition messages))
          (B.newMessageWriter s).1 ∧
    (BinaryMessageWriter.rewriteMessages B self name messages s).log
      = [Event.registryGet name (some definition),
          Event.newMessageWriter (B.newMessageWriter s).1,
          Event.reserve (B.newMessageWriter s).1 definition messages.length
            (sumBy messages (fun m => m.message.length)),
          Event.malloc ((maxBy messages (fun m => m.message.length)).map
            (fun m => m.message.length)) (stagingPtr B s definition messages)]
        ++ writeEvents (B.newMessageWriter s).1 definition (stagingPtr B s definition messages)
            messages
            (writerReturns B (B.newMessageWriter s).1 definition
              (stagingPtr B s definition messages) messages
              (stagedState B s definition messages))
        ++ [Event.free (stagingPtr B s definition messages),
            Event.getBuffer (B.newMessageWriter s).1,
            Event.getBigString (B.newMessageWriter s).1,
            Event.writerDelete (B.newMessageWriter s).1] := by
  obtain ⟨hv, hst, hlog⟩ := writeAll_of_nonneg B (B.newMessageWriter s).1 definition
    (stagingPtr B s definition messages) name messages (stagedState B s definition messages)
    hwrite
  obtain ⟨rv, rst, rlog⟩ :=
    (rewriteMessages_trace B self name messages s definition hb hr hdef).2.2 hmalloc _ hv
  rw [hst] at rv rst
  rw [hlog] at rlog
  exact ⟨rv, writerReturns_length B _ _ _ messages _, rst, rlog⟩

/-- C6. With a registered definition and a staging allocation that succeeds,
`rewriteMessages` throws exactly when some write returns a negative offset;
the error then names the topic of the first record whose write did so and the
definition name, and that write is the last event: no later record is staged
or written and nothing is returned. -/
theorem rewriteMessages_throws_iff_negative_offset {σ : Type} (B : Bridge σ)
    (self : BinaryMessageWriter) (name : Option String) (messages : List Message) (s : σ)
    (definition : Nat)
    (hb : self._bridgeInstance = true) (hr : self._definitionRegistry = true)
    (hdef : B.registryGet s name = some definition)
    (hmalloc : ∀ size ptr,
      Event.malloc size ptr ∈ (BinaryMessageWriter.rewriteMessages B self name messages s).log →
        ptr ≠ 0) :
    ((BinaryMessageWriter.rewriteMessages B self name messages s).threw = true ↔
      ∃ writer defn ptr n off, off < 0 ∧
        Event.write writer defn ptr n off
          ∈ (BinaryMessageWriter.rewriteMessages B self name messages s).log) ∧
    ((BinaryMessageWriter.rewriteMessages B self name messages s).threw = true →
      ∃ earlier m later offsets off writer ptr before,
        messages = earlier ++ m :: later ∧ offsets.length = earlier.length ∧
        (∀ x ∈ offsets, 0 ≤ x) ∧ off < 0 ∧
        (∀ e ∈ before, e.isWrite = false) ∧
        (BinaryMessageWriter.rewriteMessages B self name messages s).val
          = .error (couldNotWrite m.topic name) ∧
        (BinaryMessageWriter.rewriteMessages B self name messages s).log
          = before ++ writeEvents writer definition ptr earlier offsets
              ++ [Event.heapSet m.message ptr,
                  Event.write writer definition ptr m.message.length off]) := by
  have hpre : ∀ writer count total size ptr,
      ∀ e ∈ preamble name definition writer count total size ptr, e.isWrite = false := by
    intro writer count total size ptr e he
    simp only [preamble, List.mem_cons, List.mem_singleton, List.not_mem_nil, or_false] at he
    rcases he with rfl | rfl | rfl | rfl <;> rfl
  obtain ⟨writer, ptr, s1, h⟩ := rewriteMessages_run B self name messages s definition hb hr hdef
  rcases h with ⟨h0, _, hlog⟩ | ⟨_, e, he, hval, hlog⟩ | ⟨_, offs, buf, str, hoffs, hval, hlog⟩
  · exact absurd h0 (hmalloc _ ptr (by
      rw [hlog]
      exact List.mem_cons_of_mem _ (List.mem_cons_of_mem _ (List.mem_cons_of_mem _
        (List.mem_cons_self _ _)))))
  · rcases writeAll_run B writer definition ptr name messages s1 with
      ⟨offs, hv, _⟩ | ⟨pre, m, post, offs, off, hm, hlen, hpos, hoff, hv, hl⟩
    · rw [hv] at he; cases he
    · rw [he] at hv
      cases hv
      have hthrew : (BinaryMessageWriter.rewriteMessages B self name messages s).threw = true := by
        simp [Outcome.threw, hval]
      refine ⟨⟨fun _ => ⟨writer, definition, ptr, m.message.length, off, hoff, ?_⟩,
        fun _ => hthrew⟩, fun _ => ?_⟩
      · rw [hlog, hl]; simp
      · exact ⟨pre, m, post, offs, off, writer, ptr, _, hm, hlen, hpos, hoff, hpre _ _ _ _ _,
          hval, by rw [hlog, hl, List.append_assoc]⟩
  · rcases writeAll_run B writer definition ptr name messages s1 with
      ⟨offs', hv, hlen, hpos, hl⟩ | ⟨pre, m, post, offs', off, _, _, _, _, hv, _⟩
    · have hok : (BinaryMessageWriter.rewriteMessages B self name messages s).threw = false := by
        simp [Outcome.threw, hval]
      refine ⟨⟨fun ht => ?_, ?_⟩, fun ht => ?_⟩
      · rw [hok] at ht; cases ht
      · rintro ⟨w, d, p, n, off, hoff, hmem⟩
        rw [hlog, hl] at hmem
        rcases List.mem_append.mp hmem with hmem | hmem
        · rcases List.mem_append.mp hmem with hmem | hmem
          · have := hpre _ _ _ _ _ _ hmem
            simp [Event.isWrite] at this
          · rcases mem_writeEvents hmem with ⟨_, h'⟩ | ⟨n', o', h', ho'⟩
            · cases h'
            · cases h'
              have := hpos _ ho'
              omega
        · simp [epilogue] at hmem
      · rw [hok] at ht; cases ht
    · rw [hoffs] at hv; cases hv

/-- Whenever `rewriteMessages` throws, its log holds no call of `_free`. -/
theorem rewriteMessages_throw_never_frees {σ : Type} (B : Bridge σ)
    (self : BinaryMessageWriter) (name : Option String) (messages : List Message) (s : σ)
    (hthrew : (BinaryMessageWriter.rewriteMessages B self name messages s).threw = true) :
    ∀ e ∈ (BinaryMessageWriter.rewriteMessages B self name messages s).log, e.isFree = false := by
  have hpre : ∀ definition writer count total size ptr,
      ∀ e ∈ preamble name definition writer count total size ptr, e.isFree = false := by
    intro definition writer count total size ptr e he
    simp only [preamble, List.mem_cons, List.mem_singleton, List.not_mem_nil, or_false] at he
    rcases he with rfl | rfl | rfl | rfl <;> rfl
  by_cases hb : self._bridgeInstance = true
  · by_cases hr : self._definitionRegistry = true
    · cases hdef : B.registryGet s name with
      | none =>
        intro e he
        simp only [BinaryMessageWriter.rewriteMessages, hb, hr, hdef, Bool.true_eq_false,
          if_false, List.mem_singleton] at he
        rw [he]; rfl
      | some definition =>
        obtain ⟨writer, ptr, s1, h⟩ :=
          rewriteMessages_run B self name messages s definition hb hr hdef
        rcases h with ⟨_, _, hlog⟩ | ⟨_, e, _, _, hlog⟩ | ⟨_, offs, buf, str, _, hval, _⟩
        · rw [hlog]; exact hpre _ _ _ _ _ _
        · rw [hlog]
          intro e he
          rcases List.mem_append.mp he with he | he
          · exact hpre _ _ _ _ _ _ e he
          · exact (writeAll_log_flags B _ _ _ _ _ _ e he).2.2
        · simp [Outcome.threw, hval] at hthrew
    · intro e he
      simp [BinaryMessageWriter.rewriteMessages, hb, hr] at he
  · intro e he
    simp [BinaryMessageWriter.rewriteMessages, hb] at he

theorem addFields_of_accepted {σ : Type} (B : Bridge σ) (defn : Nat) :
    ∀ (fields : List RosMsgField) (s : σ),
      (∀ r ∈ addFieldResults B defn (fields.filter (fun f => !f.isConstant)) s, r = true) →
      (addFields B defn fields s).val = .ok () ∧
      (addFields B defn fields s).st
        = addFieldState B defn (fields.filter (fun f => !f.isConstant)) s ∧
      (addFields B defn fields s).log
        = (fields.filter (fun f => !f.isConstant)).map (fun f =>
            Event.addField defn f.type f.name f.isArray (f.arrayLength.getD (-1)) true)
  | [], s, _ => by simp [addFields, addFieldState]
  | f :: rest, s, hacc => by
    by_cases hc : f.isConstant = true
    · have ih := addFields_of_accepted B defn rest s (by simpa [hc] using hacc)
      simpa [addFields, hc] using ih
    · have hc' : f.isConstant = false := by simpa using hc
      have hfil : (f :: rest).filter (fun f => !f.isConstant)
          = f :: rest.filter (fun f => !f.isConstant) := by simp [hc']
      rw [hfil] at hacc ⊢
      have ha : (B.addField s defn f.type f.name f.isArray (f.arrayLength.getD (-1))).1 = true :=
        hacc (B.addField s defn f.type f.name f.isArray (f.arrayLength.getD (-1))).1
          (by simp [addFieldResults])
      have ih := addFields_of_accepted B defn rest
        (B.addField s defn f.type f.name f.isArray (f.arrayLength.getD (-1))).2
        (fun r hr => hacc r (by simp [addFieldResults, hr]))
      refine ⟨?_, ?_, ?_⟩
      · simp [addFields, hc', ha, ih.1]
      · simp [addFields, hc', ha, ih.2.1, addFieldState]
      · simp [addFields, hc', ha, ih.2.2]

/-- C9. For a definition whose non-constant fields the registry accepts when
they are added in order, `_createDefinition` returns the definition that the
registry's `create` returned, having called the registry's `addField` exactly
once for each field that is not constant, in the order of the field list, with
that field's type, name, `isArray` and `arrayLength` (`-1` when absent), and
never for a constant field: the bridge is left in the state these calls
produce, and the events are these calls. -/
theorem createDefinition_adds_nonconstant_fields_in_order {σ : Type} (B : Bridge σ)
    (self : BinaryMessageWriter) (name : String) (dataType : RosDatatype) (s : σ)
    (hr : self._definitionRegistry = true)
    (hacc : ∀ r ∈ addFieldResults B (B.registryCreate s name).1
        (dataType.fields.filter (fun f => !f.isConstant)) (B.registryCreate s name).2,
      r = true) :
    (BinaryMessageWriter._createDefinition B self name dataType s).val
      = .ok (B.registryCreate s name).1 ∧
    (BinaryMessageWriter._createDefinition B self name dataType s).st
      = addFieldState B (B.registryCreate s name).1
          (dataType.fields.filter (fun f => !f.isConstant)) (B.registryCreate s name).2 ∧
    (BinaryMessageWriter._createDefinition B self name dataType s).log
      = Event.registryCreate name (B.registryCreate s name).1 ::
        (dataType.fields.filter (fun f => !f.isConstant)).map (fun f =>
          Event.addField (B.registryCreate s name).1 f.type f.name f.isArray
            (f.arrayLength.getD (-1)) true) := by
  have h := addFields_of_accepted B (B.registryCreate s name).1 dataType.fields
    (B.registryCreate s name).2 hacc
  refine ⟨?_, ?_, ?_⟩
  · simp [BinaryMessageWriter._createDefinition, hr, h.1, Except.map]
  · simp [BinaryMessageWriter._createDefinition, hr, h.2.1]
  · simp [BinaryMessageWriter._createDefinition, hr, h.2.2]

/-! ### `groupBy` and `Object.keys` -/

theorem pushGroup_keys (m : Message) : ∀ (acc : JsObject (List Message)),
    (pushGroup acc m).map Prod.fst
      = if m.topic ∈ acc.map Prod.fst then acc.map Prod.fst else acc.map Prod.fst ++ [m.topic]
  | [] => by simp [pushGroup]
  | (t, g) :: rest => by
    by_cases h : t = m.topic
    · simp [pushGroup, h]
    · have ih := pushGroup_keys m rest
      have h' : ¬ m.topic = t := fun e => h e.symm
      by_cases hm : m.topic ∈ rest.map Prod.fst
      · simp only [hm, if_true] at ih
        simp [pushGroup, h, h', ih, hm]
      · simp only [hm, if_false] at ih
        simp [pushGroup, h, h', ih, hm]

theorem pushGroup_lookup (m : Message) (t : String) : ∀ (acc : JsObject (List Message)),
    (pushGroup acc m).lookup t
      = if t = m.topic then some ((acc.lookup t).getD [] ++ [m]) else acc.lookup t
  | [] => by
    by_cases h : t = m.topic
    · simp [pushGroup, List.lookup, h]
    · have hb : (t == m.topic) = false := beq_false_of_ne h
      simp [pushGroup, List.lookup, h, hb]
  | (t0, g) :: rest => by
    have ih := pushGroup_lookup m t rest
    by_cases h0 : t0 = m.topic
    · by_cases h : t = m.topic
      · simp [pushGroup, List.lookup, h0, h]
      · have hb : (t == m.topic) = false := beq_false_of_ne h
        simp [pushGroup, List.lookup, h0, h, hb]
    · by_cases ht : t = t0
      · have h : ¬ t = m.topic := fun e => h0 (ht.symm.trans e)
        simp [pushGroup, List.lookup, h0, h, ht]
      · have hb : (t == t0) = false := beq_false_of_ne ht
        simp only [pushGroup, h0, if_false, List.lookup, hb]
        exact ih

theorem foldl_pushGroup_keys : ∀ (q : List Message) (acc : JsObject (List Message)),
    (acc.map Prod.fst).Nodup →
      ((q.foldl pushGroup acc).map Prod.fst).Nodup ∧
      ∀ t, t ∈ (q.foldl pushGroup acc).map Prod.fst ↔
        t ∈ acc.map Prod.fst ∨ ∃ m ∈ q, m.topic = t
  | [], acc, h => by simp [h]
  | m :: q, acc, h => by
    have hk := pushGroup_keys m acc
    have hn : ((pushGroup acc m).map Prod.fst).Nodup := by
      rw [hk]
      split
      · exact h
      · rename_i hm
        exact List.Nodup.append h (by simp) (by simpa using hm)
    obtain ⟨h1, h2⟩ := foldl_pushGroup_keys q (pushGroup acc m) hn
    refine ⟨by simpa using h1, fun t => ?_⟩
    simp only [List.foldl_cons]
    rw [h2 t, hk]
    split
    · rename_i hm
      constructor
      · rintro (h | ⟨x, hx, rfl⟩)
        · exact Or.inl h
        · exact Or.inr ⟨x, by simp [hx], rfl⟩
      · rintro (h | ⟨x, hx, rfl⟩)
        · exact Or.inl h
        · rcases List.mem_cons.mp hx with rfl | hx
          · exact Or.inl hm
          · exact Or.inr ⟨x, hx, rfl⟩
    · constructor
      · rintro (h | ⟨x, hx, rfl⟩)
        · rcases List.mem_append.mp h with h | h
          · exact Or.inl h
          · exact Or.inr ⟨m, by simp, (List.mem_singleton.mp h).symm⟩
        · exact Or.inr ⟨x, by simp [hx], rfl⟩
      · rintro (h | ⟨x, hx, rfl⟩)
        · exact Or.inl (by simp [h])
        · rcases List.mem_cons.mp hx with rfl | hx
          · exact Or.inl (by simp)
          · exact Or.inr ⟨x, hx, rfl⟩

theorem foldl_pushGroup_lookup (t : String) :
    ∀ (q : List Message) (acc : JsObject (List Message)),
      ((q.foldl pushGroup acc).lookup t).getD []
        = (acc.lookup t).getD [] ++ q.filter (fun m => m.topic = t)
  | [], acc => by simp
  | m :: q, acc => by
    have ih := foldl_pushGroup_lookup t q (pushGroup acc m)
    simp only [List.foldl_cons]
    rw [ih, pushGroup_lookup]
    by_cases h : t = m.topic
    · simp [h]
    · have : ¬ m.topic = t := fun e => h e.symm
      simp [h, this]

theorem lookup_isSome_of_mem_keys {α : Type} (t : String) :
    ∀ (o : JsObject α), t ∈ o.map Prod.fst → ∃ v, o.lookup t = some v
  | [], h => by simp at h
  | (k, v) :: rest, h => by
    by_cases hk : t = k
    · exact ⟨v, by simp [List.lookup, hk]⟩
    · have hb : (t == k) = false := beq_false_of_ne hk
      have hm : t ∈ rest.map Prod.fst := by
        rcases List.mem_cons.mp h with h | h
        · exact absurd h hk
        · exact h
      obtain ⟨v', hv'⟩ := lookup_isSome_of_mem_keys t rest hm
      exact ⟨v', by simp [List.lookup, hb, hv']⟩

theorem groupBy_keys_nodup (messages : List Message) :
    ((groupBy messages).map Prod.fst).Nodup :=
  (foldl_pushGroup_keys messages [] (by simp)).1

theorem mem_groupBy_keys (messages : List Message) (t : String) :
    t ∈ (groupBy messages).map Prod.fst ↔ ∃ m ∈ messages, m.topic = t := by
  have := (foldl_pushGroup_keys messages [] (by simp)).2 t
  simpa [groupBy] using this

theorem groupBy_lookup (messages : List Message) (t : String)
    (h : t ∈ (groupBy messages).map Prod.fst) :
    (groupBy messages).lookup t = some (messages.filter (fun m => m.topic = t)) := by
  obtain ⟨v, hv⟩ := lookup_isSome_of_mem_keys t _ h
  have := foldl_pushGroup_lookup t messages []
  simp only [List.lookup, Option.getD_none, List.nil_append] at this
  rw [show List.foldl pushGroup [] messages = groupBy messages from rfl, hv] at this
  rw [hv]
  simpa using this

theorem objectKeys_perm {α : Type} (o : JsObject α) : (Object.keys o).Perm (o.map Prod.fst) :=
  ((List.perm_insertionSort _ _).append_right _).trans (List.filter_append_perm _ _)

theorem objectKeys_groupBy_nodup (messages : List Message) :
    (Object.keys (groupBy messages)).Nodup :=
  (objectKeys_perm _).nodup_iff.mpr (groupBy_keys_nodup messages)

theorem mem_objectKeys_groupBy (messages : List Message) (t : String) :
    t ∈ Object.keys (groupBy messages) ↔ ∃ m ∈ messages, m.topic = t :=
  ((objectKeys_perm _).mem_iff).trans (mem_groupBy_keys messages t)

theorem rewriteCalls_append (a b : List Event) :
    rewriteCalls (a ++ b) = rewriteCalls a ++ rewriteCalls b := by
  induction a with
  | nil => rfl
  | cons e a ih => cases e <;> simp [rewriteCalls, ih]

theorem rewriteCalls_writeAll {σ : Type} (B : Bridge σ) (writer defn ptr : Nat)
    (name : Option String) : ∀ (messages : List Message) (s : σ),
      rewriteCalls (writeAll B writer defn ptr name messages s).log = []
  | [], s => by simp [writeAll, rewriteCalls]
  | m :: rest, s => by
    unfold writeAll
    simp only
    split
    · simp [rewriteCalls]
    · simp [rewriteCalls, rewriteCalls_writeAll B writer defn ptr name rest]

theorem rewriteCalls_rewriteMessages {σ : Type} (B : Bridge σ) (self : BinaryMessageWriter)
    (name : Option String) (messages : List Message) (s : σ) :
    rewriteCalls (BinaryMessageWriter.rewriteMessages B self name messages s).log = [] := by
  by_cases hb : self._bridgeInstance = true
  · by_cases hr : self._definitionRegistry = true
    · cases hdef : B.registryGet s name with
      | none =>
        simp [BinaryMessageWriter.rewriteMessages, hb, hr, hdef, rewriteCalls]
      | some definition =>
        obtain ⟨writer, ptr, s1, h⟩ :=
          rewriteMessages_run B self name messages s definition hb hr hdef
        rcases h with ⟨_, _, hlog⟩ | ⟨_, e, _, _, hlog⟩ | ⟨_, offs, buf, str, _, _, hlog⟩
        · rw [hlog]; simp [preamble, rewriteCalls]
        · rw [hlog, rewriteCalls_append, rewriteCalls_writeAll]; simp [preamble, rewriteCalls]
        · rw [hlog, rewriteCalls_append, rewriteCalls_append, rewriteCalls_writeAll]
          simp [preamble, epilogue, rewriteCalls]
    · simp [BinaryMessageWriter.rewriteMessages, hb, hr, rewriteCalls]
  · simp [BinaryMessageWriter.rewriteMessages, hb, rewriteCalls]

theorem rewriteMessages_ok_length {σ : Type} (B : Bridge σ) (self : BinaryMessageWriter)
    (name : Option String) (messages : List Message) (s : σ) (binary : BinaryObjects)
    (hok : (BinaryMessageWriter.rewriteMessages B self name messages s).val = .ok binary) :
    binary.offsets.length = messages.length := by
  by_cases hb : self._bridgeInstance = true
  · by_cases hr : self._definitionRegistry = true
    · cases hdef : B.registryGet s name with
      | none =>
        simp [BinaryMessageWriter.rewriteMessages, hb, hr, hdef] at hok
      | some definition =>
        obtain ⟨writer, ptr, s1, h⟩ :=
          rewriteMessages_run B self name messages s definition hb hr hdef
        rcases h with ⟨_, hval, _⟩ | ⟨_, e, _, hval, _⟩ | ⟨_, offs, buf, str, hoffs, hval, _⟩
        · rw [hval] at hok; cases hok
        · rw [hval] at hok; cases hok
        · rw [hval] at hok
          cases hok
          rcases writeAll_run B writer definition ptr name messages s1 with
            ⟨offs', hv, hlen, _, _⟩ | ⟨_, _, _, _, _, _, _, _, _, hv, _⟩
          · rw [hoffs] at hv; cases hv; exact hlen
          · rw [hoffs] at hv; cases hv
    · simp [BinaryMessageWriter.rewriteMessages, hb, hr] at hok
  · simp [BinaryMessageWriter.rewriteMessages, hb] at hok

theorem wrapObjects_ok {β : Type} (topic : String) :
    ∀ (views : List β) (messages : List Message) (records : List (Bobject β)),
      wrapObjects topic views messages = .ok records →
        records = groupRecords topic views messages ∧ views.length ≤ messages.length
  | [], _, records, h => by
    simp only [wrapObjects] at h
    cases h
    simp [groupRecords]
  | _ :: _, [], records, h => by simp [wrapObjects] at h
  | b :: bs, m :: ms, records, h => by
    simp only [wrapObjects] at h
    cases hrec : wrapObjects topic bs ms with
    | error e => rw [hrec] at h; simp [Except.map] at h
    | ok rs =>
      rw [hrec] at h
      simp only [Except.map] at h
      cases h
      obtain ⟨h1, h2⟩ := wrapObjects_ok topic bs ms rs hrec
      simp [groupRecords, h1, h2] 

theorem forEachTopic_ok {σ β : Type} (B : Bridge σ) (getObjects : GetObjects β)
    (self : RewriteBinaryDataProvider) (writer : BinaryMessageWriter) (dbt : JsObject String)
    (mbt : JsObject (List Message))
    (hw : self._writer = some writer) (hd : self._datatypeByTopic = some dbt) :
    ∀ (keys : List String) (acc : List (Bobject β)) (s : σ),
      (forEachTopic B getObjects self mbt keys acc s).1.threw = false →
      ∃ groups : List (List (Bobject β)),
        (forEachTopic B getObjects self mbt keys acc s).2 = acc ++ groups.flatten ∧
        rewriteCalls (forEachTopic B getObjects self mbt keys acc s).1.log
          = keys.map (fun t => (dbt.lookup t, (mbt.lookup t).getD [])) ∧
        List.Forall₂ (fun t records => ∃ s' binary views,
          (BinaryMessageWriter.rewriteMessages B writer (dbt.lookup t)
            ((mbt.lookup t).getD []) s').val = .ok binary ∧
          getObjects self._datatypes (dbt.lookup t) binary.buffer binary.bigString
            binary.offsets = .ok views ∧
          views.length ≤ ((mbt.lookup t).getD []).length ∧
          records = groupRecords t views ((mbt.lookup t).getD [])) keys groups
  | [], acc, s, _ => ⟨[], by simp [forEachTopic, rewriteCalls]⟩
  | t :: rest, acc, s, h => by
    unfold forEachTopic at h ⊢
    simp only [hd] at h ⊢
    cases hm : mbt.lookup t with
    | none => simp [hm, Outcome.threw] at h
    | some msgs =>
      simp only [hm, hw] at h ⊢
      cases ho : (BinaryMessageWriter.rewriteMessages B writer (dbt.lookup t) msgs s).val with
      | error e => simp [ho, Outcome.threw] at h
      | ok binary =>
        simp only [ho] at h ⊢
        cases hg : getObjects self._datatypes (dbt.lookup t) binary.buffer binary.bigString
            binary.offsets with
        | error e => simp [hg, Outcome.threw] at h
        | ok views =>
          simp only [hg] at h ⊢
          cases hwr : wrapObjects t views msgs with
          | error e => simp [hwr, Outcome.threw] at h
          | ok records =>
            simp only [hwr] at h ⊢
            obtain ⟨hrec, hlen⟩ := wrapObjects_ok t views msgs records hwr
            have h' : (forEachTopic B getObjects self mbt rest (acc ++ records)
                (BinaryMessageWriter.rewriteMessages B writer (dbt.lookup t) msgs s).st).1.threw
                = false := by
              simpa [Outcome.threw] using h
            obtain ⟨groups, hacc, hcalls, hall⟩ :=
              forEachTopic_ok B getObjects self writer dbt mbt hw hd rest (acc ++ records) _ h'
            refine ⟨records :: groups, ?_, ?_, ?_⟩
            · simp [hacc]
            · simp [rewriteCalls, rewriteCalls_append, rewriteCalls_rewriteMessages, hcalls, hm]
            · refine List.Forall₂.cons ⟨s, binary, views, ?_, ?_, ?_, ?_⟩ hall
              · simpa [hm] using ho
              · exact hg
              · simpa [hm] using hlen
              · simpa [hm] using hrec

theorem forEachTopic_topics {σ β : Type} (B : Bridge σ) (getObjects : GetObjects β)
    (self : RewriteBinaryDataProvider) (mbt : JsObject (List Message)) :
    ∀ (keys : List String) (acc : List (Bobject β)) (s : σ),
      ∀ b ∈ (forEachTopic B getObjects self mbt keys acc s).2, b ∈ acc ∨ b.topic ∈ keys
  | [], acc, s, b, h => by simpa [forEachTopic] using h
  | t :: rest, acc, s, b, h => by
    unfold forEachTopic at h
    split at h
    · exact Or.inl h
    · split at h
      · exact Or.inl h
      · exact Or.inl h
      · simp only at h
        split at h
        · exact Or.inl h
        · split at h
          · exact Or.inl h
          · split at h
            · exact Or.inl h
            · rename_i views _ records hwr
              rcases forEachTopic_topics B getObjects self mbt rest _ _ b h with h | h
              · rcases List.mem_append.mp h with h | h
                · exact Or.inl h
                · rw [(wrapObjects_ok t _ _ records hwr).1] at h
                  simp only [groupRecords, List.mem_iff_get, List.get_eq_getElem,
                    List.getElem_zipWith] at h
                  obtain ⟨i, rfl⟩ := h
                  exact Or.inr (by simp)
              · exact Or.inr (by simp [h])

theorem forEachTopic_cons_eq {σ β : Type} (B : Bridge σ) (getObjects : GetObjects β)
    (self : RewriteBinaryDataProvider) (mbt : JsObject (List Message)) (t : String)
    (rest : List String) (acc : List (Bobject β)) (s : σ)
    (dbt : JsObject String) (msgs : List Message) (writer : BinaryMessageWriter)
    (binary : BinaryObjects) (views : List β) (records : List (Bobject β))
    (hd : self._datatypeByTopic = some dbt) (hm : mbt.lookup t = some msgs)
    (hw : self._writer = some writer)
    (ho : (BinaryMessageWriter.rewriteMessages B writer (dbt.lookup t) msgs s).val = .ok binary)
    (hg : getObjects self._datatypes (dbt.lookup t) binary.buffer binary.bigString
      binary.offsets = .ok views)
    (hwr : wrapObjects t views msgs = .ok records) :
    forEachTopic B getObjects self mbt (t :: rest) acc s
      = (⟨(forEachTopic B getObjects self mbt rest (acc ++ records)
            (BinaryMessageWriter.rewriteMessages B writer (dbt.lookup t) msgs s).st).1.val,
          (forEachTopic B getObjects self mbt rest (acc ++ records)
            (BinaryMessageWriter.rewriteMessages B writer (dbt.lookup t) msgs s).st).1.st,
          Event.rewriteMessages (dbt.lookup t) msgs ::
            (BinaryMessageWriter.rewriteMessages B writer (dbt.lookup t) msgs s).log ++
            (forEachTopic B getObjects self mbt rest (acc ++ records)
              (BinaryMessageWriter.rewriteMessages B writer (dbt.lookup t) msgs s).st).1.log⟩,
        (forEachTopic B getObjects self mbt rest (acc ++ records)
            (BinaryMessageWriter.rewriteMessages B writer (dbt.lookup t) msgs s).st).2) := by
  rw [forEachTopic]
  simp only [hd, hm, hw, ho, hg, hwr]

theorem forEachTopic_cons_inv {σ β : Type} (B : Bridge σ) (getObjects : GetObjects β)
    (self : RewriteBinaryDataProvider) (mbt : JsObject (List Message)) (t : String)
    (rest : List String) (acc : List (Bobject β)) (s : σ)
    (h : (forEachTopic B getObjects self mbt (t :: rest) acc s).1.threw = false) :
    ∃ dbt msgs writer binary views records,
      self._datatypeByTopic = some dbt ∧ mbt.lookup t = some msgs ∧
      self._writer = some writer ∧
      (BinaryMessageWriter.rewriteMessages B writer (dbt.lookup t) msgs s).val = .ok binary ∧
      getObjects self._datatypes (dbt.lookup t) binary.buffer binary.bigString
        binary.offsets = .ok views ∧
      wrapObjects t views msgs = .ok records := by
  rw [forEachTopic] at h
  cases hd : self._datatypeByTopic with
  | none => simp [hd, Outcome.threw] at h
  | some dbt =>
    simp only [hd] at h
    cases hm : mbt.lookup t with
    | none => simp [hm, Outcome.threw] at h
    | some msgs =>
      cases hw : self._writer with
      | none => simp [hm, hw, Outcome.threw] at h
      | some writer =>
        simp only [hm, hw] at h
        cases ho : (BinaryMessageWriter.rewriteMessages B writer (dbt.lookup t) msgs s).val with
        | error e => simp [ho, Outcome.threw] at h
        | ok binary =>
          simp only [ho] at h
          cases hg : getObjects self._datatypes (dbt.lookup t) binary.buffer binary.bigString
              binary.offsets with
          | error e => simp [hg, Outcome.threw] at h
          | ok views =>
            simp only [hg] at h
            cases hwr : wrapObjects t views msgs with
            | error e => simp [hwr, Outcome.threw] at h
            | ok records => exact ⟨dbt, msgs, writer, binary, views, records, rfl, rfl, rfl, ho, hg, hwr⟩

theorem forEachTopic_append {σ β : Type} (B : Bridge σ) (getObjects : GetObjects β)
    (self : RewriteBinaryDataProvider) (mbt : JsObject (List Message)) (later : List String) :
    ∀ (done : List String) (acc : List (Bobject β)) (s : σ),
      (forEachTopic B getObjects self mbt done acc s).1.threw = false →
      (forEachTopic B getObjects self mbt (done ++ later) acc s).2
        = (forEachTopic B getObjects self mbt later
            (forEachTopic B getObjects self mbt done acc s).2
            (forEachTopic B getObjects self mbt done acc s).1.st).2 ∧
      (forEachTopic B getObjects self mbt (done ++ later) acc s).1.val
        = (forEachTopic B getObjects self mbt later
            (forEachTopic B getObjects self mbt done acc s).2
            (forEachTopic B getObjects self mbt done acc s).1.st).1.val ∧
      (forEachTopic B getObjects self mbt (done ++ later) acc s).1.log
        = (forEachTopic B getObjects self mbt done acc s).1.log ++
          (forEachTopic B getObjects self mbt later
            (forEachTopic B getObjects self mbt done acc s).2
            (forEachTopic B getObjects self mbt done acc s).1.st).1.log
  | [], acc, s, _ => by simp [forEachTopic]
  | t :: rest, acc, s, h => by
    obtain ⟨dbt, msgs, writer, binary, views, records, hd, hm, hw, ho, hg, hwr⟩ :=
      forEachTopic_cons_inv B getObjects self mbt t rest acc s h
    have e1 := forEachTopic_cons_eq B getObjects self mbt t rest acc s dbt msgs writer binary
      views records hd hm hw ho hg hwr
    have e2 := forEachTopic_cons_eq B getObjects self mbt t (rest ++ later) acc s dbt msgs
      writer binary views records hd hm hw ho hg hwr
    rw [e1] at h
    have h' := forEachTopic_append B getObjects self mbt later rest (acc ++ records)
      (BinaryMessageWriter.rewriteMessages B writer (dbt.lookup t) msgs s).st
      (by simpa [Outcome.threw] using h)
    rw [List.cons_append, e2, e1]
    refine ⟨h'.1, h'.2.1, ?_⟩
    simp only
    rw [h'.2.2]
    simp

theorem timeCompare_neg_iff (a b : Time) : TimeUtil.compare a b < 0 ↔ Time.before a b := by
  unfold TimeUtil.compare Time.before
  simp only
  split <;> omega

theorem timeCompare_zero_iff (a b : Time) : TimeUtil.compare a b = 0 ↔ a = b := by
  unfold TimeUtil.compare
  simp only
  constructor
  · intro h
    cases a; cases b
    simp only [Time.mk.injEq]
    simp only at h
    split at h <;> omega
  · rintro rfl
    simp

theorem compareBobjects_le_iff {β : Type} (ns : String → String → Int) (a b : Bobject β) :
    compareBobjects ns a b ≤ 0 ↔ inOrder ns a b := by
  have h1 := timeCompare_neg_iff a.receiveTime b.receiveTime
  have h2 := timeCompare_zero_iff a.receiveTime b.receiveTime
  unfold compareBobjects inOrder
  simp only
  split
  · rename_i hc
    constructor
    · intro h
      exact Or.inl (h1.mp (by omega))
    · rintro (h | ⟨h, _⟩)
      · have := h1.mpr h; omega
      · exact absurd (h2.mpr h) hc
  · rename_i hc
    have hc' : TimeUtil.compare a.receiveTime b.receiveTime = 0 := by omega
    constructor
    · intro h
      exact Or.inr ⟨h2.mp hc', h⟩
    · rintro (h | ⟨_, h⟩)
      · have := h1.mpr h; omega
      · exact h

theorem inOrder_total {β : Type} (ns : String → String → Int)
    (htotal : ∀ a b, ns a b ≤ 0 ∨ ns b a ≤ 0) (a b : Bobject β) :
    inOrder ns a b ∨ inOrder ns b a := by
  unfold inOrder Time.before
  by_cases h : a.receiveTime = b.receiveTime
  · rcases htotal a.topic b.topic with h' | h'
    · exact Or.inl (Or.inr ⟨h, h'⟩)
    · exact Or.inr (Or.inr ⟨h.symm, h'⟩)
  · have : a.receiveTime.sec ≠ b.receiveTime.sec ∨ a.receiveTime.nsec ≠ b.receiveTime.nsec := by
      by_contra hc
      push_neg at hc
      apply h
      cases ha : a.receiveTime; cases hb : b.receiveTime
      simp only [ha, hb] at hc
      simp [hc.1, hc.2]
    omega

theorem inOrder_trans {β : Type} (ns : String → String → Int)
    (htrans : ∀ a b c, ns a b ≤ 0 → ns b c ≤ 0 → ns a c ≤ 0) (a b c : Bobject β)
    (hab : inOrder ns a b) (hbc : inOrder ns b c) : inOrder ns a c := by
  unfold inOrder Time.before at *
  rcases hab with hab | ⟨hab, nab⟩
  · rcases hbc with hbc | ⟨hbc, _⟩
    · exact Or.inl (by omega)
    · rw [← hbc]; exact Or.inl hab
  · rcases hbc with hbc | ⟨hbc, nbc⟩
    · rw [hab]; exact Or.inl hbc
    · exact Or.inr ⟨hab.trans hbc, htrans _ _ _ nab nbc⟩

theorem jsSort_perm {α : Type} (compare : α → α → Int) (xs : List α) :
    (jsSort compare xs).Perm xs :=
  List.perm_insertionSort _ xs

theorem jsSort_sorted {β : Type} (ns : String → String → Int)
    (htotal : ∀ a b, ns a b ≤ 0 ∨ ns b a ≤ 0)
    (htrans : ∀ a b c, ns a b ≤ 0 → ns b c ≤ 0 → ns a c ≤ 0) (xs : List (Bobject β)) :
    (jsSort (compareBobjects ns) xs).Pairwise (inOrder ns) := by
  haveI : IsTotal (Bobject β) (fun a b => compareBobjects ns a b ≤ 0) :=
    ⟨fun a b => by
      simp only [compareBobjects_le_iff]
      exact inOrder_total ns htotal a b⟩
  haveI : IsTrans (Bobject β) (fun a b => compareBobjects ns a b ≤ 0) :=
    ⟨fun a b c => by
      simp only [compareBobjects_le_iff]
      exact inOrder_trans ns htrans a b c⟩
  have h := List.sorted_insertionSort (fun a b : Bobject β => compareBobjects ns a b ≤ 0) xs
  exact List.Pairwise.imp (fun {a b} hab => (compareBobjects_le_iff ns a b).mp hab) h

/-- C1. In rewrite mode, whatever the input batch and its order, the `bobjects`
that `getMessages` returns are sorted: of any two records the earlier one has
the earlier receive time or, the receive times being equal, a topic that the
natural order does not place after the other topic.  The comparator of topic
names is any consistent one (total and transitive). -/
theorem getMessages_sorted_by_time_then_topic {σ β : Type} (B : Bridge σ)
    (getObjects : GetObjects β) (ns : String → String → Int)
    (self : RewriteBinaryDataProvider) (rosBinaryMessages : Option (List Message)) (s : σ)
    (hmode : self._useBinaryObjects = true)
    (htotal : ∀ a b, ns a b ≤ 0 ∨ ns b a ≤ 0)
    (htrans : ∀ a b c, ns a b ≤ 0 → ns b c ≤ 0 → ns a c ≤ 0) :
    ∃ out, (RewriteBinaryDataProvider.getMessages B getObjects ns self rosBinaryMessages s).val
        = .ok (some out) ∧ out.Pairwise (inOrder ns) := by
  unfold RewriteBinaryDataProvider.getMessages
  simp only [hmode, Bool.true_eq_false, if_false]
  exact ⟨_, rfl, jsSort_sorted ns htotal htrans _⟩

/-- C4. In pass-through mode `initialize` leaves the provider as it was,
without a writer, and calls nothing of the bridge, and `getMessages` returns as
`bobjects` the records of the child provider, same length and order, each with
its topic, receive time and bytes, and calls nothing of the bridge either: no
writer is created, no definition registered or looked up, no
`rewriteMessages` called. -/
theorem passthrough_returns_child_records_untouched {σ β : Type} (B : Bridge σ)
    (getObjects : GetObjects β) (ns : String → String → Int)
    (self : RewriteBinaryDataProvider) (result : InitializationResult)
    (rosBinaryMessages : Option (List Message)) (s : σ)
    (hmode : self._useBinaryObjects = false) :
    ( RewriteBinaryDataProvider.initialize B self result s).val = .ok (self, result) ∧
    ( RewriteBinaryDataProvider.initialize B self result s).log = [] ∧
    ( RewriteBinaryDataProvider.initialize B self result s).st = s ∧
    (RewriteBinaryDataProvider.getMessages B getObjects ns self rosBinaryMessages s).val
      = .ok (rosBinaryMessages.map (fun ms => ms.map (fun m => ⟨m.topic, m.receiveTime,
          Payload.raw m.message⟩))) ∧
    (RewriteBinaryDataProvider.getMessages B getObjects ns self rosBinaryMessages s).log = [] ∧
    (RewriteBinaryDataProvider.getMessages B getObjects ns self rosBinaryMessages s).st = s := by
  simp [ RewriteBinaryDataProvider.initialize, RewriteBinaryDataProvider.getMessages, hmode,
    Bobject.ofMessage]
  rfl

theorem forEachTopic_cons_fail {σ β : Type} (B : Bridge σ) (getObjects : GetObjects β)
    (self : RewriteBinaryDataProvider) (mbt : JsObject (List Message)) (t : String)
    (rest : List String) (acc : List (Bobject β)) (s : σ)
    (dbt : JsObject String) (msgs : List Message) (writer : BinaryMessageWriter) (e : String)
    (hd : self._datatypeByTopic = some dbt) (hm : mbt.lookup t = some msgs)
    (hw : self._writer = some writer)
    (ho : (BinaryMessageWriter.rewriteMessages B writer (dbt.lookup t) msgs s).val = .error e) :
    forEachTopic B getObjects self mbt (t :: rest) acc s
      = (⟨.error e, (BinaryMessageWriter.rewriteMessages B writer (dbt.lookup t) msgs s).st,
          Event.rewriteMessages (dbt.lookup t) msgs ::
            (BinaryMessageWriter.rewriteMessages B writer (dbt.lookup t) msgs s).log⟩, acc) := by
  rw [forEachTopic]
  simp only [hd, hm, hw, ho]

/-- C2, as the code has it. In rewrite mode, when `rewriteMessages` fails for
a topic group, `getMessages` does not throw: it reports the error and returns,
sorted, the records of the topic groups processed before the failing one.  No
record of the failing group or of a later group is returned, and the result is
empty when the failing group is the first one processed. -/
theorem getMessages_keeps_groups_before_failure {σ β : Type} (B : Bridge σ)
    (getObjects : GetObjects β) (ns : String → String → Int)
    (self : RewriteBinaryDataProvider) (writer : BinaryMessageWriter) (dbt : JsObject String)
    (messages : List Message) (s : σ) (done : List String) (t : String) (later : List String)
    (hmode : self._useBinaryObjects = true)
    (hw : self._writer = some writer) (hd : self._datatypeByTopic = some dbt)
    (hkeys : Object.keys (groupBy messages) = done ++ t :: later)
    (hdone : (forEachTopic B getObjects self (groupBy messages) done [] s).1.threw = false)
    (hfail : (BinaryMessageWriter.rewriteMessages B writer (dbt.lookup t)
      (messages.filter (fun m => m.topic = t))
      (forEachTopic B getObjects self (groupBy messages) done [] s).1.st).threw = true) :
    ∃ out e,
      (RewriteBinaryDataProvider.getMessages B getObjects ns self (some messages) s).val
        = .ok (some out) ∧
      out = jsSort (compareBobjects ns)
        (forEachTopic B getObjects self (groupBy messages) done [] s).2 ∧
      (∀ b ∈ out, b.topic ∈ done ∧ b.topic ≠ t ∧ b.topic ∉ later) ∧
      (done = [] → out = []) ∧
      (RewriteBinaryDataProvider.getMessages B getObjects ns self (some messages) s).log.getLast?
        = some (Event.sendNotification "Failed to write binary objects" e) := by
  have hnodup := objectKeys_groupBy_nodup messages
  rw [hkeys] at hnodup
  have htmem : t ∈ (groupBy messages).map Prod.fst :=
    (objectKeys_perm (groupBy messages)).mem_iff.mp (by rw [hkeys]; simp)
  have hm := groupBy_lookup messages t htmem
  obtain ⟨e, he⟩ : ∃ e, (BinaryMessageWriter.rewriteMessages B writer (dbt.lookup t)
      (messages.filter (fun m => m.topic = t))
      (forEachTopic B getObjects self (groupBy messages) done [] s).1.st).val = .error e := by
    cases hv : (BinaryMessageWriter.rewriteMessages B writer (dbt.lookup t)
      (messages.filter (fun m => m.topic = t))
      (forEachTopic B getObjects self (groupBy messages) done [] s).1.st).val with
    | error e => exact ⟨e, rfl⟩
    | ok r => simp [Outcome.threw, hv] at hfail
  have happ := forEachTopic_append B getObjects self (groupBy messages) (t :: later) done [] s
    hdone
  have hstep := forEachTopic_cons_fail B getObjects self (groupBy messages) t later
    (forEachTopic B getObjects self (groupBy messages) done [] s).2
    (forEachTopic B getObjects self (groupBy messages) done [] s).1.st dbt _ writer e hd hm hw he
  rw [hstep] at happ
  obtain ⟨h2, hval, hlog⟩ := happ
  have hmemtopic : ∀ b ∈ jsSort (compareBobjects ns)
      (forEachTopic B getObjects self (groupBy messages) done [] s).2, b.topic ∈ done := by
    intro b hb
    have hb' := (jsSort_perm _ _).mem_iff.mp hb
    rcases forEachTopic_topics B getObjects self (groupBy messages) done [] s b hb' with h | h
    · simp at h
    · exact h
  refine ⟨_, e, ?_, rfl, ?_, ?_, ?_⟩
  · simp only [RewriteBinaryDataProvider.getMessages, hmode, Bool.true_eq_false, if_false,
      hkeys, h2]
  · intro b hb
    have hbd := hmemtopic b hb
    have hdisj := (List.nodup_append.mp hnodup).2.2
    refine ⟨hbd, ?_, ?_⟩
    · intro heq
      exact hdisj hbd (by simp [heq])
    · intro hl
      exact hdisj hbd (by simp [hl])
  · intro hnil
    subst hnil
    simp [forEachTopic, jsSort]
  · simp only [RewriteBinaryDataProvider.getMessages, hmode, Bool.true_eq_false, if_false,
      hkeys, hval, hlog]
    exact List.getLast?_concat _

theorem flatMap_filter_topic_perm : ∀ (keys : List String) (messages : List Message),
    keys.Nodup → (∀ m ∈ messages, m.topic ∈ keys) →
      (keys.flatMap (fun t => messages.filter (fun m => m.topic = t))).Perm messages
  | [], messages, _, hcover => by
    cases messages with
    | nil => simp
    | cons m ms => exact absurd (hcover m (by simp)) (by simp)
  | t :: ks, messages, hnodup, hcover => by
    have hnd := List.nodup_cons.mp hnodup
    have hrest : ks.flatMap (fun t' => messages.filter (fun m => m.topic = t'))
        = ks.flatMap (fun t' => (messages.filter (fun m => !decide (m.topic = t))).filter
            (fun m => m.topic = t')) := by
      apply List.flatMap_congr
      intro t' ht'
      rw [List.filter_filter]
      apply List.filter_congr
      intro m _
      have hne : ¬ t' = t := fun e => hnd.1 (e ▸ ht')
      by_cases h : m.topic = t'
      · subst h
        simp [hne]
      · simp [h]
    have ih := flatMap_filter_topic_perm ks (messages.filter (fun m => !decide (m.topic = t)))
      hnd.2 (by
        intro m hm
        have hm' := List.mem_filter.mp hm
        rcases List.mem_cons.mp (hcover m hm'.1) with h | h
        · simp [h] at hm'
        · exact h)
    rw [List.flatMap_cons, hrest]
    exact (List.Perm.append_left _ ih).trans (List.filter_append_perm _ _)

theorem groupRecords_keys {β : Type} (t : String) (views : List β) (msgs : List Message)
    (hlen : views.length = msgs.length) (htopic : ∀ m ∈ msgs, m.topic = t) :
    (groupRecords t views msgs).map (fun b => (b.topic, b.receiveTime))
      = msgs.map (fun m => (m.topic, m.receiveTime)) := by
  induction views generalizing msgs with
  | nil =>
    cases msgs with
    | nil => rfl
    | cons m ms => simp at hlen
  | cons b bs ih =>
    cases msgs with
    | nil => simp at hlen
    | cons m ms =>
      have h1 := htopic m (by simp)
      have := ih ms (by simpa using hlen) (fun x hx => htopic x (by simp [hx]))
      simp only [groupRecords] at this
      simp [groupRecords, List.zipWith, this, h1]

/-- C3. In rewrite mode, when the loop over the topic groups ends without an
error and `getObjects` returns one view per offset, `rewriteMessages` was
called exactly once for each distinct topic, with the records of that topic in
input order, and the output is a permutation of the groups' records: one
output record per input record, the one built from the i-th record of a group
carrying the group's topic, that record's receive time and the i-th view that
`getObjects` made from the offsets of the group's result. -/
theorem getMessages_rewrites_each_topic_once {σ β : Type} (B : Bridge σ)
    (getObjects : GetObjects β) (ns : String → String → Int)
    (self : RewriteBinaryDataProvider) (writer : BinaryMessageWriter) (dbt : JsObject String)
    (messages : List Message) (s : σ)
    (hmode : self._useBinaryObjects = true)
    (hw : self._writer = some writer) (hd : self._datatypeByTopic = some dbt)
    (hok : (forEachTopic B getObjects self (groupBy messages)
      (Object.keys (groupBy messages)) [] s).1.threw = false)
    (hviews : ∀ dts name buffer bigString offsets views,
      getObjects dts name buffer bigString offsets = .ok views →
        views.length = offsets.length) :
    (Object.keys (groupBy messages)).Nodup ∧
    (∀ t, t ∈ Object.keys (groupBy messages) ↔ ∃ m ∈ messages, m.topic = t) ∧
    rewriteCalls
        (RewriteBinaryDataProvider.getMessages B getObjects ns self (some messages) s).log
      = (Object.keys (groupBy messages)).map
          (fun t => (dbt.lookup t, messages.filter (fun m => m.topic = t))) ∧
    ∃ out groups,
      (RewriteBinaryDataProvider.getMessages B getObjects ns self (some messages) s).val
        = .ok (some out) ∧
      out.Perm groups.flatten ∧
      out.length = messages.length ∧
      (out.map (fun b => (b.topic, b.receiveTime))).Perm
        (messages.map (fun m => (m.topic, m.receiveTime))) ∧
      List.Forall₂ (fun t records => ∃ s' binary views,
          (BinaryMessageWriter.rewriteMessages B writer (dbt.lookup t)
            (messages.filter (fun m => m.topic = t)) s').val = .ok binary ∧
          getObjects self._datatypes (dbt.lookup t) binary.buffer binary.bigString
            binary.offsets = .ok views ∧
          views.length = (messages.filter (fun m => m.topic = t)).length ∧
          records = groupRecords t views (messages.filter (fun m => m.topic = t)))
        (Object.keys (groupBy messages)) groups := by
  have hnodup := objectKeys_groupBy_nodup messages
  have hmem := mem_objectKeys_groupBy messages
  have hlookup : ∀ t ∈ Object.keys (groupBy messages),
      ((groupBy messages).lookup t).getD [] = messages.filter (fun m => m.topic = t) := by
    intro t ht
    rw [groupBy_lookup messages t ((objectKeys_perm _).mem_iff.mp ht)]
    rfl
  obtain ⟨groups, hacc, hcalls, hall⟩ :=
    forEachTopic_ok B getObjects self writer dbt (groupBy messages) hw hd _ [] s hok
  have hall' : List.Forall₂ (fun t records => ∃ s' binary views,
      (BinaryMessageWriter.rewriteMessages B writer (dbt.lookup t)
        (messages.filter (fun m => m.topic = t)) s').val = .ok binary ∧
      getObjects self._datatypes (dbt.lookup t) binary.buffer binary.bigString
        binary.offsets = .ok views ∧
      views.length = (messages.filter (fun m => m.topic = t)).length ∧
      records = groupRecords t views (messages.filter (fun m => m.topic = t)))
      (Object.keys (groupBy messages)) groups := by
    have hgen : ∀ (keys : List String) (gs : List (List (Bobject β))),
        (∀ t ∈ keys, t ∈ Object.keys (groupBy messages)) →
        List.Forall₂ (fun t records => ∃ s' binary views,
          (BinaryMessageWriter.rewriteMessages B writer (dbt.lookup t)
            (((groupBy messages).lookup t).getD []) s').val = .ok binary ∧
          getObjects self._datatypes (dbt.lookup t) binary.buffer binary.bigString
            binary.offsets = .ok views ∧
          views.length ≤ (((groupBy messages).lookup t).getD []).length ∧
          records = groupRecords t views (((groupBy messages).lookup t).getD [])) keys gs →
        List.Forall₂ (fun t records => ∃ s' binary views,
          (BinaryMessageWriter.rewriteMessages B writer (dbt.lookup t)
            (messages.filter (fun m => m.topic = t)) s').val = .ok binary ∧
          getObjects self._datatypes (dbt.lookup t) binary.buffer binary.bigString
            binary.offsets = .ok views ∧
          views.length = (messages.filter (fun m => m.topic = t)).length ∧
          records = groupRecords t views (messages.filter (fun m => m.topic = t))) keys gs := by
      intro keys gs hsub h
      induction h with
      | nil => exact List.Forall₂.nil
      | @cons t records ks gs' hhead _ ih =>
        obtain ⟨s', binary, views, h1, h2, _, h4⟩ := hhead
        rw [hlookup t (hsub t (by simp))] at h1 h4
        refine List.Forall₂.cons ⟨s', binary, views, h1, h2, ?_, h4⟩
          (ih (fun x hx => hsub x (by simp [hx])))
        rw [hviews _ _ _ _ _ _ h2]
        exact rewriteMessages_ok_length B writer _ _ s' binary h1
    exact hgen _ _ (fun _ h => h) hall
  have hkeysEq : ∀ (keys : List String) (gs : List (List (Bobject β))),
      List.Forall₂ (fun t records => ∃ s' binary views,
          (BinaryMessageWriter.rewriteMessages B writer (dbt.lookup t)
            (messages.filter (fun m => m.topic = t)) s').val = .ok binary ∧
          getObjects self._datatypes (dbt.lookup t) binary.buffer binary.bigString
            binary.offsets = .ok views ∧
          views.length = (messages.filter (fun m => m.topic = t)).length ∧
          records = groupRecords t views (messages.filter (fun m => m.topic = t))) keys gs →
      gs.flatten.map (fun b => (b.topic, b.receiveTime))
        = (keys.flatMap (fun t => messages.filter (fun m => m.topic = t))).map
            (fun m => (m.topic, m.receiveTime)) := by
    intro keys gs h
    induction h with
    | nil => rfl
    | cons hhead _ ih =>
      obtain ⟨s', binary, views, _, _, h3, h4⟩ := hhead
      rw [List.flatten_cons, List.map_append, List.flatMap_cons, List.map_append, ih, h4,
        groupRecords_keys _ _ _ h3 (fun m hm => by simpa using (List.mem_filter.mp hm).2)]
  have hval : (RewriteBinaryDataProvider.getMessages B getObjects ns self (some messages) s).val
      = .ok (some (jsSort (compareBobjects ns) groups.flatten)) := by
    simp only [RewriteBinaryDataProvider.getMessages, hmode, Bool.true_eq_false, if_false,
      hacc, List.nil_append]
  have hperm : (jsSort (compareBobjects ns) groups.flatten).Perm groups.flatten :=
    jsSort_perm _ _
  have hkeyperm : ((jsSort (compareBobjects ns) groups.flatten).map
      (fun b => (b.topic, b.receiveTime))).Perm
      (messages.map (fun m => (m.topic, m.receiveTime))) := by
    refine (hperm.map _).trans ?_
    rw [hkeysEq _ _ hall']
    exact (flatMap_filter_topic_perm _ messages hnodup
      (fun m hm => (hmem m.topic).mpr ⟨m, hm, rfl⟩)).map _
  refine ⟨hnodup, hmem, ?_, _, groups, hval, hperm, ?_, hkeyperm, hall'⟩
  · have hthrew : (forEachTopic B getObjects self (groupBy messages)
        (Object.keys (groupBy messages)) [] s).1.val = .ok () := by
      cases hv : (forEachTopic B getObjects self (groupBy messages)
        (Object.keys (groupBy messages)) [] s).1.val with
      | error e => simp [Outcome.threw, hv] at hok
      | ok u => rfl
    simp only [RewriteBinaryDataProvider.getMessages, hmode, Bool.true_eq_false, if_false,
      hthrew, List.append_nil, hcalls]
    apply List.map_congr_left
    intro t ht
    rw [hlookup t ht]
  · have := hkeyperm.length_eq
    simpa using this

/-- C7, as the code has it. When `registerDefinitions` fails during
`initialize` with `useBinaryObjects = true`, `initialize` reports the error and
still returns the child provider's result, and the provider stays in rewrite
mode without a topic table: every later `getMessages` returns an empty
`bobjects`, reporting an error for every non-empty batch; the child's records
are not passed through. -/
theorem failed_registration_gives_empty_output {σ β : Type} (B : Bridge σ)
    (getObjects : GetObjects β) (ns : String → String → Int)
    (result : InitializationResult) (s : σ)
    (hfail : (BinaryMessageWriter.registerDefinitions B
      ( BinaryMessageWriter.initialize BinaryMessageWriter.new) result.datatypes s).threw
        = true) :
    ∃ self' e,
      ( RewriteBinaryDataProvider.initialize B (RewriteBinaryDataProvider.new true) result s).val
        = .ok (self', result) ∧
      ( RewriteBinaryDataProvider.initialize B (RewriteBinaryDataProvider.new true) result
          s).log.getLast?
        = some (Event.sendNotification "Failed to register type definitions" e) ∧
      self'._useBinaryObjects = true ∧
      ∀ (batch : Option (List Message)) (s' : σ),
        (RewriteBinaryDataProvider.getMessages B getObjects ns self' batch s').val
          = .ok (some []) ∧
        (RewriteBinaryDataProvider.getMessages B getObjects ns self' batch s').st = s' ∧
        ((∃ ms m, batch = some ms ∧ m ∈ ms) →
          (RewriteBinaryDataProvider.getMessages B getObjects ns self' batch s').log
            = [Event.sendNotification "Failed to write binary objects" typeError]) := by
  obtain ⟨e, he⟩ : ∃ e, (BinaryMessageWriter.registerDefinitions B
      ( BinaryMessageWriter.initialize BinaryMessageWriter.new) result.datatypes s).val
        = .error e := by
    cases hv : (BinaryMessageWriter.registerDefinitions B
      ( BinaryMessageWriter.initialize BinaryMessageWriter.new) result.datatypes s).val with
    | error e => exact ⟨e, rfl⟩
    | ok r => simp [Outcome.threw, hv] at hfail
  refine ⟨{ RewriteBinaryDataProvider.new true with
      _writer := some ( BinaryMessageWriter.initialize BinaryMessageWriter.new) }, e, ?_, ?_, rfl, ?_⟩
  · simp [ RewriteBinaryDataProvider.initialize, RewriteBinaryDataProvider.new, he]
  · simp only [ RewriteBinaryDataProvider.initialize, RewriteBinaryDataProvider.new, he, if_true]
    exact List.getLast?_concat (Event.newBinaryMessageWriter :: _)
  · intro batch s'
    cases batch with
    | none =>
      refine ⟨?_, ?_, ?_⟩
      · simp [RewriteBinaryDataProvider.getMessages, RewriteBinaryDataProvider.new, jsSort]
      · simp [RewriteBinaryDataProvider.getMessages, RewriteBinaryDataProvider.new]
      · rintro ⟨ms, m, h, _⟩
        cases h
    | some ms =>
      cases hk : Object.keys (groupBy ms) with
      | nil =>
        refine ⟨?_, ?_, ?_⟩
        · simp [RewriteBinaryDataProvider.getMessages, RewriteBinaryDataProvider.new, hk,
            forEachTopic, jsSort]
        · simp [RewriteBinaryDataProvider.getMessages, RewriteBinaryDataProvider.new, hk,
            forEachTopic]
        · rintro ⟨ms', m, h, hm⟩
          cases h
          have := (mem_objectKeys_groupBy ms m.topic).mpr ⟨m, hm, rfl⟩
          rw [hk] at this
          simp at this
      | cons t rest =>
        refine ⟨?_, ?_, ?_⟩
        · simp [RewriteBinaryDataProvider.getMessages, RewriteBinaryDataProvider.new, hk,
            forEachTopic, jsSort]
        · simp [RewriteBinaryDataProvider.getMessages, RewriteBinaryDataProvider.new, hk,
            forEachTopic]
        · intro _
          simp [RewriteBinaryDataProvider.getMessages, RewriteBinaryDataProvider.new, hk,
            forEachTopic]

theorem compareKeys_total : ∀ (x y : List (Nat × Nat)),
    compareKeys x y ≤ 0 ∨ compareKeys y x ≤ 0
  | [], [] => by simp [compareKeys]
  | [], _ :: _ => by simp [compareKeys]
  | _ :: _, [] => by simp [compareKeys]
  | a :: as, b :: bs => by
    have ih := compareKeys_total as bs
    simp only [compareKeys]
    split_ifs <;> omega

theorem compareKeys_trans : ∀ (x y z : List (Nat × Nat)),
    compareKeys x y ≤ 0 → compareKeys y z ≤ 0 → compareKeys x z ≤ 0
  | [], _, [] => by simp [compareKeys]
  | [], _, _ :: _ => by simp [compareKeys]
  | _ :: _, [], _ => by simp [compareKeys]
  | _ :: _, _ :: _, [] => by simp [compareKeys]
  | a :: as, b :: bs, c :: cs => by
    have ih := compareKeys_trans as bs cs
    simp only [compareKeys]
    intro h1 h2
    split_ifs at h1 h2 ⊢ <;> omega

theorem naturalSort_total (a b : String) : naturalSort a b ≤ 0 ∨ naturalSort b a ≤ 0 :=
  compareKeys_total _ _

theorem naturalSort_trans (a b c : String) :
    naturalSort a b ≤ 0 → naturalSort b c ≤ 0 → naturalSort a c ≤ 0 :=
  compareKeys_trans _ _ _

/-- On the concrete bridge, `initialize` in rewrite mode with `demoResult` yields
`demoProvider` and leaves the bridge in `demoReady`. -/
theorem demo_initialize :
    ( RewriteBinaryDataProvider.initialize demoBridge (RewriteBinaryDataProvider.new true)
      demoResult DemoState.fresh).val = .ok (demoProvider, demoResult) ∧
    ( RewriteBinaryDataProvider.initialize demoBridge (RewriteBinaryDataProvider.new true)
      demoResult DemoState.fresh).st = demoReady := by
  decide

/-- C1 on a batch of three records with one receive time, on topics "a10",
"a2", "a1", with the natural order modelled from the spec: they come out in
the order a1, a2, a10. -/
theorem getMessages_sorted_by_time_then_topic_witness :
    demoProvider._useBinaryObjects = true ∧
    (∃ out, (RewriteBinaryDataProvider.getMessages demoBridge demoGetObjects naturalSort
        demoProvider (some demoBatch) demoReady).val = .ok (some out) ∧
      out.Pairwise (inOrder naturalSort)) ∧
    (RewriteBinaryDataProvider.getMessages demoBridge demoGetObjects naturalSort
        demoProvider (some demoBatch) demoReady).val
      = .ok (some [⟨"a1", ⟨1, 0⟩, .view (some "T", 0)⟩, ⟨"a2", ⟨1, 0⟩, .view (some "T", 0)⟩,
          ⟨"a10", ⟨1, 0⟩, .view (some "T", 0)⟩]) :=
  ⟨rfl, getMessages_sorted_by_time_then_topic demoBridge demoGetObjects naturalSort demoProvider
    (some demoBatch) demoReady rfl naturalSort_total naturalSort_trans, by decide⟩

/-- C2 fails as stated: in a batch where the group of topic "b" fails to
rewrite after the group of "a1" succeeded, `getMessages` returns the record
of "a1", not an empty sequence. -/
theorem getMessages_returns_nonempty_after_failed_group :
    (BinaryMessageWriter.rewriteMessages demoBridge demoWriter (some "T")
      [⟨"b", ⟨0, 0⟩, [5]⟩]
      (forEachTopic demoBridge demoGetObjects demoProvider (groupBy demoTruncatedBatch)
        ["a1"] [] demoReady).1.st).threw = true ∧
    (RewriteBinaryDataProvider.getMessages demoBridge demoGetObjects naturalSort
        demoProvider (some demoTruncatedBatch) demoReady).val
      = .ok (some [⟨"a1", ⟨1, 0⟩, .view (some "T", 0)⟩]) ∧
    (RewriteBinaryDataProvider.getMessages demoBridge demoGetObjects naturalSort
        demoProvider (some demoTruncatedBatch) demoReady).val ≠ .ok (some []) := by
  refine ⟨by decide, by decide, ?_⟩
  decide

/-- C2, as the code has it, on the batch with a truncated record on "b". -/
theorem getMessages_keeps_groups_before_failure_witness :
    demoProvider._useBinaryObjects = true ∧
    Object.keys (groupBy demoTruncatedBatch) = ["a1"] ++ "b" :: [] ∧
    ∃ out e,
      (RewriteBinaryDataProvider.getMessages demoBridge demoGetObjects naturalSort demoProvider
        (some demoTruncatedBatch) demoReady).val = .ok (some out) ∧
      out = jsSort (compareBobjects naturalSort)
        (forEachTopic demoBridge demoGetObjects demoProvider (groupBy demoTruncatedBatch)
          ["a1"] [] demoReady).2 ∧
      (∀ b ∈ out, b.topic ∈ ["a1"] ∧ b.topic ≠ "b" ∧ b.topic ∉ ([] : List String)) ∧
      (["a1"] = [] → out = []) ∧
      (RewriteBinaryDataProvider.getMessages demoBridge demoGetObjects naturalSort demoProvider
        (some demoTruncatedBatch) demoReady).log.getLast?
        = some (Event.sendNotification "Failed to write binary objects" e) :=
  ⟨rfl, by decide,
    getMessages_keeps_groups_before_failure demoBridge demoGetObjects naturalSort demoProvider
      demoWriter [("a1", "T"), ("a10", "T"), ("a2", "T"), ("b", "T")] demoTruncatedBatch
      demoReady ["a1"] "b" [] rfl rfl rfl (by decide) (by decide) (by decide)⟩

/-- C3 on a batch of two topics: one call of `rewriteMessages` for "a2" with
its two records in input order, one for "a1", and three output records. -/
theorem getMessages_rewrites_each_topic_once_witness :
    demoProvider._useBinaryObjects = true ∧
    (forEachTopic demoBridge demoGetObjects demoProvider (groupBy demoMixedBatch)
      (Object.keys (groupBy demoMixedBatch)) [] demoReady).1.threw = false ∧
    rewriteCalls (RewriteBinaryDataProvider.getMessages demoBridge demoGetObjects naturalSort
        demoProvider (some demoMixedBatch) demoReady).log
      = [(some "T", [⟨"a2", ⟨2, 0⟩, [1, 2, 3, 4]⟩, ⟨"a2", ⟨1, 0⟩, [4, 3, 2, 1]⟩]),
         (some "T", [⟨"a1", ⟨1, 500⟩, [5, 6, 7, 8, 9]⟩])] ∧
    (RewriteBinaryDataProvider.getMessages demoBridge demoGetObjects naturalSort
        demoProvider (some demoMixedBatch) demoReady).val
      = .ok (some [⟨"a2", ⟨1, 0⟩, .view (some "T", 4)⟩, ⟨"a1", ⟨1, 500⟩, .view (some "T", 0)⟩,
          ⟨"a2", ⟨2, 0⟩, .view (some "T", 0)⟩]) := by
  have h := getMessages_rewrites_each_topic_once demoBridge demoGetObjects naturalSort
    demoProvider demoWriter [("a1", "T"), ("a10", "T"), ("a2", "T"), ("b", "T")] demoMixedBatch
    demoReady rfl rfl rfl (by decide) (by
      intro dts name buffer bigString offsets views hv
      simp only [demoGetObjects, Except.ok.injEq] at hv
      rw [← hv, List.length_map])
  refine ⟨rfl, by decide, ?_, by decide⟩
  rw [h.2.2.1]
  decide

/-- C4 on a provider constructed with `useBinaryObjects = false`. -/
theorem passthrough_returns_child_records_untouched_witness :
    (RewriteBinaryDataProvider.new false)._useBinaryObjects = false ∧
    ( RewriteBinaryDataProvider.initialize demoBridge (RewriteBinaryDataProvider.new false)
      demoResult DemoState.fresh).log = [] ∧
    (RewriteBinaryDataProvider.getMessages demoBridge demoGetObjects naturalSort
        (RewriteBinaryDataProvider.new false) (some demoTruncatedBatch) DemoState.fresh).val
      = .ok (some [⟨"a1", ⟨1, 0⟩, .raw [1, 2, 3, 4]⟩, ⟨"b", ⟨0, 0⟩, .raw [5]⟩]) :=
  have h := passthrough_returns_child_records_untouched demoBridge demoGetObjects naturalSort
    (RewriteBinaryDataProvider.new false) demoResult (some demoTruncatedBatch) DemoState.fresh rfl
  ⟨rfl, h.2.1, h.2.2.2.1⟩

/-- The events of a successful `rewriteMessages` of two records on the concrete
bridge. -/
theorem demo_rewrite_log :
    (BinaryMessageWriter.rewriteMessages demoBridge demoWriter (some "T")
      [⟨"a2", ⟨2, 0⟩, [1, 2, 3, 4]⟩, ⟨"a2", ⟨1, 0⟩, [4, 3, 2, 1, 0]⟩] demoReady).log
      = [Event.registryGet (some "T") (some 0), Event.newMessageWriter 0,
          Event.reserve 0 0 2 9, Event.malloc (some 5) 8,
          Event.heapSet [1, 2, 3, 4] 8, Event.write 0 0 8 4 0,
          Event.heapSet [4, 3, 2, 1, 0] 8, Event.write 0 0 8 5 4,
          Event.free 8, Event.getBuffer 0, Event.getBigString 0, Event.writerDelete 0] := by
  decide

/-- The events of a `rewriteMessages` whose second record is too short to
write: the third record is never staged. -/
theorem demo_rewrite_failed_log :
    (BinaryMessageWriter.rewriteMessages demoBridge demoWriter (some "T")
      [⟨"b", ⟨0, 0⟩, [1, 2, 3, 4]⟩, ⟨"b", ⟨0, 1⟩, [5]⟩, ⟨"b", ⟨0, 2⟩, [6, 7, 8, 9]⟩]
      demoReady).log
      = [Event.registryGet (some "T") (some 0), Event.newMessageWriter 0,
          Event.reserve 0 0 3 9, Event.malloc (some 4) 8,
          Event.heapSet [1, 2, 3, 4] 8, Event.write 0 0 8 4 0,
          Event.heapSet [5] 8, Event.write 0 0 8 1 (-1)] := by
  decide

/-- C5 on two records that the concrete bridge writes at offsets 0 and 4. -/
theorem rewriteMessages_offsets_in_input_order_witness :
    demoBridge.registryGet demoReady (some "T") = some 0 ∧
    stagingPtr demoBridge demoReady 0
      [⟨"a2", ⟨2, 0⟩, [1, 2, 3, 4]⟩, ⟨"a2", ⟨1, 0⟩, [4, 3, 2, 1, 0]⟩] = 8 ∧
    writerReturns demoBridge 0 0 8
      [⟨"a2", ⟨2, 0⟩, [1, 2, 3, 4]⟩, ⟨"a2", ⟨1, 0⟩, [4, 3, 2, 1, 0]⟩]
      (stagedState demoBridge demoReady 0
        [⟨"a2", ⟨2, 0⟩, [1, 2, 3, 4]⟩, ⟨"a2", ⟨1, 0⟩, [4, 3, 2, 1, 0]⟩]) = [0, 4] ∧
    (BinaryMessageWriter.rewriteMessages demoBridge demoWriter (some "T")
      [⟨"a2", ⟨2, 0⟩, [1, 2, 3, 4]⟩, ⟨"a2", ⟨1, 0⟩, [4, 3, 2, 1, 0]⟩] demoReady).val
      = .ok ⟨some "T", [0, 4], [1, 2, 3, 4, 4, 3, 2, 1, 0], ""⟩ ∧
    (BinaryMessageWriter.rewriteMessages demoBridge demoWriter (some "T")
      [⟨"a2", ⟨2, 0⟩, [1, 2, 3, 4]⟩, ⟨"a2", ⟨1, 0⟩, [4, 3, 2, 1, 0]⟩] demoReady).st.live = [] :=
  have h := rewriteMessages_offsets_in_input_order demoBridge demoWriter (some "T")
    [⟨"a2", ⟨2, 0⟩, [1, 2, 3, 4]⟩, ⟨"a2", ⟨1, 0⟩, [4, 3, 2, 1, 0]⟩] demoReady 0 rfl rfl
    (by decide) (by decide) (by decide)
  ⟨by decide, by decide, by decide, h.1.trans (by decide), by rw [h.2.2.1]; decide⟩

/-- C6 on three records of which the second is too short to write. -/
theorem rewriteMessages_throws_iff_negative_offset_witness :
    demoBridge.registryGet demoReady (some "T") = some 0 ∧
    (BinaryMessageWriter.rewriteMessages demoBridge demoWriter (some "T")
      [⟨"b", ⟨0, 0⟩, [1, 2, 3, 4]⟩, ⟨"b", ⟨0, 1⟩, [5]⟩, ⟨"b", ⟨0, 2⟩, [6, 7, 8, 9]⟩]
      demoReady).val = .error (couldNotWrite "b" (some "T")) ∧
    ((BinaryMessageWriter.rewriteMessages demoBridge demoWriter (some "T")
      [⟨"b", ⟨0, 0⟩, [1, 2, 3, 4]⟩, ⟨"b", ⟨0, 1⟩, [5]⟩, ⟨"b", ⟨0, 2⟩, [6, 7, 8, 9]⟩]
      demoReady).threw = true ↔
      ∃ writer defn ptr n off, off < 0 ∧
        Event.write writer defn ptr n off
          ∈ (BinaryMessageWriter.rewriteMessages demoBridge demoWriter (some "T")
              [⟨"b", ⟨0, 0⟩, [1, 2, 3, 4]⟩, ⟨"b", ⟨0, 1⟩, [5]⟩, ⟨"b", ⟨0, 2⟩, [6, 7, 8, 9]⟩]
              demoReady).log) :=
  ⟨by decide, by decide,
    (rewriteMessages_throws_iff_negative_offset demoBridge demoWriter (some "T")
      [⟨"b", ⟨0, 0⟩, [1, 2, 3, 4]⟩, ⟨"b", ⟨0, 1⟩, [5]⟩, ⟨"b", ⟨0, 2⟩, [6, 7, 8, 9]⟩]
      demoReady 0 rfl rfl (by decide)
      (by
        intro size ptr h
        rw [demo_rewrite_failed_log] at h
        simp at h
        omega)).1⟩

/-- C9 on the record type `T`: two calls of `addField`, none for the constant. -/
theorem createDefinition_adds_nonconstant_fields_in_order_witness :
    demoWriter._definitionRegistry = true ∧
    addFieldResults demoBridge 0
      [⟨"uint32", "x", false, none, false⟩, ⟨"float64", "v", true, some 3, false⟩]
      (demoBridge.registryCreate DemoState.fresh "T").2 = [true, true] ∧
    (BinaryMessageWriter._createDefinition demoBridge demoWriter "T"
      ⟨[⟨"uint32", "x", false, none, false⟩, ⟨"uint8", "K", false, none, true⟩,
        ⟨"float64", "v", true, some 3, false⟩]⟩ DemoState.fresh).val = .ok 0 ∧
    (BinaryMessageWriter._createDefinition demoBridge demoWriter "T"
      ⟨[⟨"uint32", "x", false, none, false⟩, ⟨"uint8", "K", false, none, true⟩,
        ⟨"float64", "v", true, some 3, false⟩]⟩ DemoState.fresh).log
      = [Event.registryCreate "T" 0, Event.addField 0 "uint32" "x" false (-1) true,
          Event.addField 0 "float64" "v" true 3 true] ∧
    (BinaryMessageWriter._createDefinition demoBridge demoWriter "T"
      ⟨[⟨"uint32", "x", false, none, false⟩, ⟨"uint8", "K", false, none, true⟩,
        ⟨"float64", "v", true, some 3, false⟩]⟩ DemoState.fresh).st.fields
      = [(0, "x"), (0, "v")] :=
  have h := createDefinition_adds_nonconstant_fields_in_order demoBridge demoWriter "T"
    ⟨[⟨"uint32", "x", false, none, false⟩, ⟨"uint8", "K", false, none, true⟩,
      ⟨"float64", "v", true, some 3, false⟩]⟩ DemoState.fresh rfl (by decide)
  ⟨rfl, by decide, h.1.trans (by decide), h.2.2.trans (by decide), by rw [h.2.1]; decide⟩

/-- C10 on two records of 4 and 5 bytes: `reserve` with 2 and 9, `_malloc`
with 5, and the writes run with the pointer 8 that `_malloc` returned. -/
theorem rewriteMessages_reserves_total_and_max_witness :
    demoBridge.registryGet demoReady (some "T") = some 0 ∧
    (∃ size rest,
      (∃ m ∈ [(⟨"a2", ⟨2, 0⟩, [1, 2, 3, 4]⟩ : Message), ⟨"a2", ⟨1, 0⟩, [4, 3, 2, 1, 0]⟩],
        m.message.length = size) ∧
      (∀ m ∈ [(⟨"a2", ⟨2, 0⟩, [1, 2, 3, 4]⟩ : Message), ⟨"a2", ⟨1, 0⟩, [4, 3, 2, 1, 0]⟩],
        m.message.length ≤ size ∧ m.message.length ≤ 9) ∧
      (BinaryMessageWriter.rewriteMessages demoBridge demoWriter (some "T")
        [⟨"a2", ⟨2, 0⟩, [1, 2, 3, 4]⟩, ⟨"a2", ⟨1, 0⟩, [4, 3, 2, 1, 0]⟩] demoReady).log
        = [Event.registryGet (some "T") (some 0), Event.newMessageWriter 0,
            Event.reserve 0 0 2 9, Event.malloc (some size) 8] ++ rest ∧
      (∀ e ∈ rest, e.isReserve = false ∧ e.isMalloc = false)) ∧
    (BinaryMessageWriter.rewriteMessages demoBridge demoWriter (some "T")
      [⟨"a2", ⟨2, 0⟩, [1, 2, 3, 4]⟩, ⟨"a2", ⟨1, 0⟩, [4, 3, 2, 1, 0]⟩] demoReady).log
      = [Event.registryGet (some "T") (some 0), Event.newMessageWriter 0,
          Event.reserve 0 0 2 9, Event.malloc (some 5) 8,
          Event.heapSet [1, 2, 3, 4] 8, Event.write 0 0 8 4 0,
          Event.heapSet [4, 3, 2, 1, 0] 8, Event.write 0 0 8 5 4,
          Event.free 8, Event.getBuffer 0, Event.getBigString 0, Event.writerDelete 0] ∧
    (BinaryMessageWriter.rewriteMessages demoBridge demoWriter (some "T")
      [⟨"a2", ⟨2, 0⟩, [1, 2, 3, 4]⟩, ⟨"a2", ⟨1, 0⟩, [4, 3, 2, 1, 0]⟩] demoReady).st.reserved
      = [(2, 9)] := by
  obtain ⟨size, rest, h1, h2, _, _, h5, h6, _⟩ :=
    rewriteMessages_reserves_total_and_max demoBridge demoWriter (some "T")
      [⟨"a2", ⟨2, 0⟩, [1, 2, 3, 4]⟩, ⟨"a2", ⟨1, 0⟩, [4, 3, 2, 1, 0]⟩] demoReady 0 rfl rfl
      (by decide) (by simp)
  exact ⟨by decide, ⟨size, rest, h1, h2, h5, h6⟩, demo_rewrite_log, by decide⟩

/-- C8 at a failing input: one record whose write returns `-1`.  The staging
region is allocated (pointer 8) and never released: the call throws with
`_malloc` in its log and no `_free`, and the allocation is still live
afterwards. -/
theorem rewriteMessages_failed_write_leaks_staging :
    (BinaryMessageWriter.rewriteMessages demoBridge demoWriter (some "T")
      [⟨"b", ⟨0, 0⟩, [5]⟩] demoReady).val = .error (couldNotWrite "b" (some "T")) ∧
    (BinaryMessageWriter.rewriteMessages demoBridge demoWriter (some "T")
      [⟨"b", ⟨0, 0⟩, [5]⟩] demoReady).log
      = [Event.registryGet (some "T") (some 0), Event.newMessageWriter 0,
          Event.reserve 0 0 1 1, Event.malloc (some 1) 8,
          Event.heapSet [5] 8, Event.write 0 0 8 1 (-1)] ∧
    demoReady.live = [] ∧
    (BinaryMessageWriter.rewriteMessages demoBridge demoWriter (some "T")
      [⟨"b", ⟨0, 0⟩, [5]⟩] demoReady).st.live = [8] := by
  refine ⟨by decide, by decide, by decide, by decide⟩

/-- C7 fails as stated: after a failed registration `getMessages` returns an
empty sequence for a batch of one record, not that record. -/
theorem failed_registration_is_not_passthrough :
    (BinaryMessageWriter.registerDefinitions demoBridge
      ( BinaryMessageWriter.initialize BinaryMessageWriter.new) demoBadResult.datatypes
      DemoState.fresh).threw = true ∧
    ( RewriteBinaryDataProvider.initialize demoBridge (RewriteBinaryDataProvider.new true)
      demoBadResult DemoState.fresh).val
      = .ok ({ RewriteBinaryDataProvider.new true with _writer := some demoWriter },
          demoBadResult) ∧
    (RewriteBinaryDataProvider.getMessages demoBridge demoGetObjects naturalSort
      { RewriteBinaryDataProvider.new true with _writer := some demoWriter }
      (some [⟨"a1", ⟨1, 0⟩, [1, 2, 3, 4]⟩]) DemoState.fresh).val = .ok (some []) ∧
    (RewriteBinaryDataProvider.getMessages demoBridge demoGetObjects naturalSort
      { RewriteBinaryDataProvider.new true with _writer := some demoWriter }
      (some [⟨"a1", ⟨1, 0⟩, [1, 2, 3, 4]⟩]) DemoState.fresh).val
      ≠ .ok (some [⟨"a1", ⟨1, 0⟩, .raw [1, 2, 3, 4]⟩]) := by
  refine ⟨by decide, by decide, by decide, by decide⟩

/-- C7, as the code has it, on a catalog with a field of unknown type. -/
theorem failed_registration_gives_empty_output_witness :
    (BinaryMessageWriter.registerDefinitions demoBridge
      ( BinaryMessageWriter.initialize BinaryMessageWriter.new) demoBadResult.datatypes
      DemoState.fresh).threw = true ∧
    ∃ self' e,
      ( RewriteBinaryDataProvider.initialize demoBridge (RewriteBinaryDataProvider.new true)
          demoBadResult DemoState.fresh).val = .ok (self', demoBadResult) ∧
      ( RewriteBinaryDataProvider.initialize demoBridge (RewriteBinaryDataProvider.new true)
          demoBadResult DemoState.fresh).log.getLast?
        = some (Event.sendNotification "Failed to register type definitions" e) ∧
      self'._useBinaryObjects = true ∧
      ∀ (batch : Option (List Message)) (s' : DemoState),
        (RewriteBinaryDataProvider.getMessages demoBridge demoGetObjects naturalSort self'
          batch s').val = .ok (some []) ∧
        (RewriteBinaryDataProvider.getMessages demoBridge demoGetObjects naturalSort self'
          batch s').st = s' ∧
        ((∃ ms m, batch = some ms ∧ m ∈ ms) →
          (RewriteBinaryDataProvider.getMessages demoBridge demoGetObjects naturalSort self'
            batch s').log
            = [Event.sendNotification "Failed to write binary objects" typeError]) :=
  ⟨by decide, failed_registration_gives_empty_output demoBridge demoGetObjects naturalSort
    demoBadResult DemoState.fresh (by decide)⟩

end Webviz
